import Mathlib

/-!
Verification of the rigidification transformation of
`sofagym/envs/Maze/rigidification.py` (function `Rigidify`).

The Python source is shallowly embedded below.  Python machine behaviour is
modelled as follows: Python ints are `ℤ`; Python floats are `ℝ`; list
subscription `xs[i]` (which wraps negative indices and raises `IndexError`
out of range) is `pyGet`; a Python `dict` is an insertion-ordered
association list (`pyDictInsert` replaces in place, appending fresh keys,
exactly the ordering guarantee of CPython dicts since 3.7); a Python `set`
has implementation-defined iteration order, so the set difference
`list(set(a) - set(b))` of line 116 is abstracted as a `setDiff` parameter
constrained by `SetDiffSpec`, with `cpySetDiff` reproducing the concrete
CPython 3.x hash-table order for non-negative int keys.  Fallible code runs
in `Except PyErr`.  Engine-side scene-graph calls (node creation, solver
removal) carry no data relevant to the claims except the non-idempotent
solver removal, which is abstracted to one Boolean flag.
-/

/-- Kinds of runtime failure the embedded code can raise.
`sizeMismatchAssertion` is the `assert len(groupIndices) == len(frames)` of
line 62; `frameFormatError` is the `NotImplementedError` of line 109;
`indexError` is a Python `IndexError` from list subscription;
`emptyInputError` is the spec-mandated failure of the barycenter on empty
input (spec section 4.1); `typeErrorNone` is the Python `TypeError` that
flattening a `None` dict value at line 121 would raise. -/
inductive PyErr where
  | sizeMismatchAssertion
  | frameFormatError
  | indexError
  | emptyInputError
  | typeErrorNone
  deriving DecidableEq, Repr

/-- A 3d point, as read from the mechanical containers. -/
abbrev Point : Type := ℝ × ℝ × ℝ

/-- Python list subscription `xs[i]`: non-negative indices in range are
direct, negative indices `-len ≤ i < 0` wrap around, anything else raises
`IndexError`. -/
def pyGet {α : Type} (xs : List α) (i : ℤ) : Except PyErr α :=
  if h : 0 ≤ i ∧ i < (xs.length : ℤ) then
    .ok (xs.get ⟨i.toNat, by omega⟩)
  else if h2 : -(xs.length : ℤ) ≤ i ∧ i < 0 then
    .ok (xs.get ⟨((xs.length : ℤ) + i).toNat, by omega⟩)
  else .error .indexError

/-- The list `[0, 1, ..., n-1]` of global indices.  Models
`allIndices = list(sourceObject.container.points.value)` of line 74: per the
spec's data model (section 3) a point's global index is its position in the
point sequence, so the container's index list is the ascending index range. -/
def intRange (n : ℕ) : List ℤ :=
  (List.range n).map (Nat.cast : ℕ → ℤ)

/-- Lines 78-84: `mfilter(si, ai, pts)` walks `ai` in order and collects
`pts[i]` for every `i` also contained in `si`. -/
def mfilter {α : Type} (si : List ℤ) (pts : List α) : List ℤ → Except PyErr (List α)
  | [] => .ok []
  | i :: rest =>
    if i ∈ si then do
      let p ← pyGet pts i
      let tl ← mfilter si pts rest
      .ok (p :: tl)
    else mfilter si pts rest

/-- Arithmetic mean of a list of points, coordinatewise. -/
noncomputable def mean3 (l : List Point) : Point :=
  ((l.map (fun p => p.1)).sum / l.length,
   (l.map (fun p => p.2.1)).sum / l.length,
   (l.map (fun p => p.2.2)).sum / l.length)

/-- Modelled from the spec: `getBarycenter` (the BarycenterCalculator of
spec section 4.1) is called at lines 97 and 100 but its definition is not
under `src/` (it lives in the external stlib template library).  Per the
spec it returns the arithmetic mean of the coordinates and fails with
`EmptyInputError` on empty input. -/
noncomputable def getBarycenter (l : List Point) : Except PyErr Point :=
  if l.length = 0 then .error .emptyInputError else .ok (mean3 l)

/-- A quaternion, stored as components x, y, z, w. -/
structure Quat4 where
  x : ℝ
  y : ℝ
  z : ℝ
  w : ℝ

/-- Hamilton product of two quaternions. -/
def quatMul (p q : Quat4) : Quat4 :=
  ⟨p.w * q.x + p.x * q.w + p.y * q.z - p.z * q.y,
   p.w * q.y - p.x * q.z + p.y * q.w + p.z * q.x,
   p.w * q.z + p.x * q.y - p.y * q.x + p.z * q.w,
   p.w * q.w - p.x * q.x - p.y * q.y - p.z * q.z⟩

/-- Squared euclidean norm of a quaternion. -/
def normSq4 (q : Quat4) : ℝ :=
  q.x ^ 2 + q.y ^ 2 + q.z ^ 2 + q.w ^ 2

/-- Squared euclidean norm of a coefficient list (used on the stored
`[qx, qy, qz, qw]` orientation slice of a rigid frame). -/
def listNormSq (l : List ℝ) : ℝ :=
  (l.map (fun c => c ^ 2)).sum

/-- Degrees to radians. -/
noncomputable def degToRad (d : ℝ) : ℝ :=
  d * Real.pi / 180

/-- Rotation by angle `t` (radians) about the x axis, as a quaternion. -/
noncomputable def xRot (t : ℝ) : Quat4 :=
  ⟨Real.sin (t / 2), 0, 0, Real.cos (t / 2)⟩

/-- Rotation by angle `t` (radians) about the y axis, as a quaternion. -/
noncomputable def yRot (t : ℝ) : Quat4 :=
  ⟨0, Real.sin (t / 2), 0, Real.cos (t / 2)⟩

/-- Rotation by angle `t` (radians) about the z axis, as a quaternion. -/
noncomputable def zRot (t : ℝ) : Quat4 :=
  ⟨0, 0, Real.sin (t / 2), Real.cos (t / 2)⟩

/-- Components of a quaternion as the Python list `[qx, qy, qz, qw]`. -/
def quatToList (q : Quat4) : List ℝ :=
  [q.x, q.y, q.z, q.w]

/-- Modelled from the spec: `Quat.createFromEuler(..., inDegree=True)` of
lines 96 and 102 comes from the external `splib3.numerics`, not under
`src/`.  Per spec section 4.2 it converts Euler angles given in degrees,
with a fixed axis order (x, then y, then z), into a quaternion
`[qx, qy, qz, qw]`, normalized on output. -/
noncomputable def createFromEuler (rx ry rz : ℝ) : List ℝ :=
  quatToList (quatMul (zRot (degToRad rz)) (quatMul (yRot (degToRad ry)) (xRot (degToRad rx))))

/-- Coordinates of a point as a Python list `[x, y, z]`. -/
def pointToList (p : Point) : List ℝ :=
  [p.1, p.2.1, p.2.2]

/-- Lines 95-111: dispatch on the arity of one frame spec, producing the
7-scalar rigid `poscenter + list(orientation)`.  Arity 3 converts Euler
angles and takes the barycenter of the selected points; arity 4 takes the
given quaternion unchanged and the barycenter; arity 6 takes the explicit
position and converts Euler angles; arity 7 takes position and quaternion
unchanged; any other arity raises the `NotImplementedError` of line 109. -/
noncomputable def synthFrame (frame : List ℝ) (selectedPoints : List Point) :
    Except PyErr (List ℝ) :=
  if frame.length = 3 then do
    let orientation := createFromEuler (frame.getD 0 0) (frame.getD 1 0) (frame.getD 2 0)
    let c ← getBarycenter selectedPoints
    .ok (pointToList c ++ orientation)
  else if frame.length = 4 then do
    let c ← getBarycenter selectedPoints
    .ok (pointToList c ++ frame)
  else if frame.length = 6 then
    .ok (frame.take 3 ++ createFromEuler (frame.getD 3 0) (frame.getD 4 0) (frame.getD 5 0))
  else if frame.length = 7 then
    .ok (frame.take 3 ++ frame.drop 3)
  else .error .frameFormatError

/-- Lines 92-111: the loop over rigid groups.  For each (group, frame)
pair in declaration order it selects the group's points with `mfilter`
over the global index list and synthesizes the 7-scalar rigid. -/
noncomputable def processGroups (pts : List Point) (ai : List ℤ) :
    List (List ℤ × List ℝ) → Except PyErr (List (List ℝ))
  | [] => .ok []
  | (g, f) :: rest => do
    let sel ← mfilter g pts ai
    let r ← synthFrame f sel
    let tl ← processGroups pts ai rest
    .ok (r :: tl)

/-- Keys of a Python dict modelled as an association list. -/
def pyDictHasKey (d : List (ℤ × Option (List ℕ))) (k : ℤ) : Bool :=
  d.any (fun kv => kv.1 = k)

/-- CPython dict assignment `d[k] = v`: an existing key keeps its position
and gets the new value, a fresh key is appended at the end (insertion
order is a documented language guarantee since Python 3.7). -/
def pyDictInsert (d : List (ℤ × Option (List ℕ))) (k : ℤ) (v : Option (List ℕ)) :
    List (ℤ × Option (List ℕ)) :=
  if pyDictHasKey d k then d.map (fun kv => if kv.1 = k then (kv.1, v) else kv)
  else d ++ [(k, v)]

/-- Insert every key of `l` with value `None` into dict `d`, left to right. -/
def pyDictInsertNone (d : List (ℤ × Option (List ℕ))) : List ℤ → List (ℤ × Option (List ℕ))
  | [] => d
  | v :: rest => pyDictInsertNone (pyDictInsert d v none) rest

/-- Line 118: `Kd = {v: None for k, v in enumerate(allIndices)}`. -/
def pyDictOfNone (l : List ℤ) : List (ℤ × Option (List ℕ)) :=
  pyDictInsertNone [] l

/-- Lines 119-120: `Kd.update({v: [tag, k] for k, v in enumerate(xs)})`,
unfolded to one dict assignment per enumerated element starting at
enumeration counter `k`. -/
def pyDictUpdateFrom (tag : ℕ) (k : ℕ) (d : List (ℤ × Option (List ℕ))) :
    List ℤ → List (ℤ × Option (List ℕ))
  | [] => d
  | v :: rest => pyDictUpdateFrom tag (k + 1) (pyDictInsert d v (some [tag, k])) rest

/-- Line 121: `indexPairs = [v for kv in Kd.values() for v in kv]`, which
flattens every stored `[tag, localIndex]` value and raises a `TypeError`
if some value is still `None`. -/
def flattenValues : List (ℤ × Option (List ℕ)) → Except PyErr (List ℕ)
  | [] => .ok []
  | (_, none) :: _ => .error .typeErrorNone
  | (_, some kv) :: rest => do
    let tl ← flattenValues rest
    .ok (kv ++ tl)

/-- List comprehension `[xs[i] for i in idxs]` (lines 125 and 132). -/
def getAll {α : Type} (xs : List α) : List ℤ → Except PyErr (List α)
  | [] => .ok []
  | i :: rest => do
    let p ← pyGet xs i
    let tl ← getAll xs rest
    .ok (p :: tl)

/-- Specification every faithful model of `list(set(a) - set(b))` meets:
the result enumerates, without duplicates and in some implementationChosen
order, exactly the elements of `a` not in `b`.  Python leaves the
iteration order of a `set` unspecified, so the embedding is parametric in
this strategy. -/
def SetDiffSpec (sd : List ℤ → List ℤ → List ℤ) : Prop :=
  ∀ a b, (sd a b).Nodup ∧ ∀ x, x ∈ sd a b ↔ (x ∈ a ∧ x ∉ b)

/-- Reference set-difference strategy keeping the order of first operand. -/
def filterSetDiff (a b : List ℤ) : List ℤ :=
  a.dedup.filter (fun x => decide (x ∉ b))

theorem filterSetDiff_spec : SetDiffSpec filterSetDiff := by
  intro a b
  constructor
  · exact (List.nodup_dedup a).filter _
  · intro x
    simp [filterSetDiff, List.mem_filter, List.mem_dedup]

/-- A CPython set of small non-negative ints: open-addressing hash table
whose slots hold the keys (a small int hashes to itself), plus the fill
count.  Faithful to CPython's `setobject.c` (table of a power-of-two size,
initially 8). -/
structure CpySet where
  table : List (Option ℤ)
  fill : ℕ

/-- Scan the linear-probe window `i, i+1, ..., i+probes` of the table:
answer the first empty slot, or `.inr true` when the key is found, or
`.inr false` when the window is exhausted. -/
def cpyScan (table : List (Option ℤ)) (v : ℤ) : ℕ → ℕ → Sum ℕ Bool
  | i, probes =>
    match table.getD i none with
    | none => .inl i
    | some u =>
      if u = v then .inr true
      else
        match probes with
        | 0 => .inr false
        | p + 1 => cpyScan table v (i + 1) p

/-- CPython `set_add_entry` probe loop: start at `hash & mask`, scan a
window of `LINEAR_PROBES = 9` slots when it fits under the mask, then jump
to `(i*5 + 1 + (perturb >>= 5)) & mask`.  Returns the slot at which to
insert, or `none` when the key is already present (or fuel runs out, which
concrete evaluations never reach). -/
def cpyProbeAdd (table : List (Option ℤ)) (v : ℤ) : ℕ → ℕ → ℕ → Option ℕ
  | 0, _, _ => none
  | fuel + 1, i, perturb =>
    let mask := table.length - 1
    let probes := if i + 9 ≤ mask then 9 else 0
    match cpyScan table v i probes with
    | .inl slot => some slot
    | .inr true => none
    | .inr false =>
      let perturb2 := perturb / 32
      cpyProbeAdd table v fuel ((i * 5 + 1 + perturb2) % table.length) perturb2

/-- Scan for an empty slot only (used when rebuilding a table, where no
duplicate keys can occur): CPython `set_insert_clean`. -/
def cpyScanClean (table : List (Option ℤ)) : ℕ → ℕ → Option ℕ
  | i, probes =>
    match table.getD i none with
    | none => some i
    | some _ =>
      match probes with
      | 0 => none
      | p + 1 => cpyScanClean table (i + 1) p

/-- Probe loop of CPython `set_insert_clean`. -/
def cpyProbeClean (table : List (Option ℤ)) (v : ℤ) : ℕ → ℕ → ℕ → Option ℕ
  | 0, _, _ => none
  | fuel + 1, i, perturb =>
    let mask := table.length - 1
    let probes := if i + 9 ≤ mask then 9 else 0
    match cpyScanClean table i probes with
    | some slot => some slot
    | none =>
      let perturb2 := perturb / 32
      cpyProbeClean table v fuel ((i * 5 + 1 + perturb2) % table.length) perturb2

/-- Insert one key into a freshly rebuilt table (no duplicate checks). -/
def cpyInsertClean (table : List (Option ℤ)) (v : ℤ) : List (Option ℤ) :=
  match cpyProbeClean table v 64 (v.toNat % table.length) v.toNat with
  | some slot => table.set slot (some v)
  | none => table

/-- Smallest power-of-two size strictly above `minused`, grown from 8
(CPython `set_table_resize`), with fuel. -/
def cpyGrow (minused : ℕ) : ℕ → ℕ → ℕ
  | sz, 0 => sz
  | sz, fuel + 1 => if sz ≤ minused then cpyGrow minused (sz * 2) fuel else sz

/-- Rebuild the table at the new size, reinserting the surviving keys in
slot order (CPython `set_table_resize`). -/
def cpyResize (st : CpySet) : CpySet :=
  let elems := st.table.filterMap id
  let newsize := cpyGrow (st.fill * 4) 8 32
  ⟨elems.foldl cpyInsertClean (List.replicate newsize none), st.fill⟩

/-- CPython `set.add`: probe, insert, then resize to `used*4` slots when
the fill reaches 3/5 of the mask. -/
def cpySetAdd (st : CpySet) (v : ℤ) : CpySet :=
  match cpyProbeAdd st.table v 64 (v.toNat % st.table.length) v.toNat with
  | none => st
  | some slot =>
    let st2 : CpySet := ⟨st.table.set slot (some v), st.fill + 1⟩
    if st2.fill * 5 ≥ (st.table.length - 1) * 3 then cpyResize st2 else st2

/-- Build a CPython set from a list, adding elements left to right. -/
def cpySetOfList (l : List ℤ) : CpySet :=
  l.foldl cpySetAdd ⟨List.replicate 8 none, 0⟩

/-- Iteration order of a CPython set: occupied slots in table order. -/
def cpySetElems (st : CpySet) : List ℤ :=
  st.table.filterMap id

/-- Concrete CPython semantics of `list(set(a) - set(b))` for non-negative
int keys (line 116): build the left set, walk it in slot order keeping the
elements not in `b` (membership in the right set is order-independent, so
a list membership test is equivalent), add the survivors into a fresh set
and read it off in slot order. -/
def cpySetDiff (a b : List ℤ) : List ℤ :=
  let survivors := (cpySetElems (cpySetOfList a)).filter (fun v => decide (v ∉ b))
  cpySetElems (cpySetOfList survivors)

/-- The coupling descriptor assembled by `Rigidify` (lines 116-150): the
free ("DeformableParts") container positions, the 7-scalar rigid frames,
the rigidified container positions with the owning-rigid ordinal per point
(`rigidIndexPerPoint`), the flattened index-pair sequence handed to the
`SubsetMultiMapping`, the internal index lists they are built from, and
whether the source body's solver components have been removed. -/
structure RigidifyOut where
  outName : String
  deformablePoints : List Point
  rigids : List (List ℝ)
  rigidifiedPoints : List Point
  indicesMap : List ℕ
  otherIndices : List ℤ
  selectedIndices : List ℤ
  indexPairs : List ℕ
  solverRemoved : Bool

/-- Lines 53-60: the deprecated `frameOrientation` parameter, when
supplied, wholesale replaces `frames`; afterwards a still-missing `frames`
defaults to one zero Euler triple per group. -/
def resolveFrames (groupCount : ℕ)
    (frames frameOrientation : Option (List (List ℝ))) : List (List ℝ) :=
  (match frameOrientation with
    | some fo => some fo
    | none => frames).getD (List.replicate groupCount [0, 0, 0])

/-- Line 114: `indicesMap += [i] * len(groupIndices[i])`, the
owning-rigid ordinal for every rigidified point, in group order. -/
def rigidIndexPerPoint (groupIndices : List (List ℤ)) : List ℕ :=
  (List.enum groupIndices).flatMap (fun p => List.replicate p.2.length p.1)

/-- Lines 118-120: the dict `Kd`, keyed by every global index with value
`None`, then updated with `[0, k]` for the k-th free index and `[1, k]`
for the k-th selected index. -/
def buildKd (n : ℕ) (otherIndices selectedIndices : List ℤ) :
    List (ℤ × Option (List ℕ)) :=
  pyDictUpdateFrom 1 0 (pyDictUpdateFrom 0 0 (pyDictOfNone (intRange n)) otherIndices)
    selectedIndices

/-- Lines 35-154: the `Rigidify` transformation.  `setDiff` is the
iteration-order strategy of the Python set difference at line 116;
`containerPositions` models `sourceObject.container.position.value`,
`dofsPositions` models `sourceObject.dofs.position.value`;
`alreadyRigidified` abstracts, per spec section 5, whether the source
body's solver components were already removed by a previous invocation
(modelled from the spec, since the engine-side scene graph is external) -
the source never inspects that state.  Steps: the deprecated
`frameOrientation` wholesale replaces `frames` (lines 54-57); a missing
`frames` defaults to one zero Euler triple per group (lines 59-60); the
length assertion of line 62; the per-group loop (lines 92-114); the index
bookkeeping (lines 116-121); the three containers (lines 123-135); solver
removal (lines 137-139). -/
noncomputable def pyRigidify (setDiff : List ℤ → List ℤ → List ℤ)
    (containerPositions dofsPositions : List Point)
    (groupIndices : List (List ℤ)) (frames : Option (List (List ℝ)))
    (name : Option String) (frameOrientation : Option (List (List ℝ)))
    (sourceName : String) (alreadyRigidified : Bool) :
    Except PyErr RigidifyOut :=
  if groupIndices.length = (resolveFrames groupIndices.length frames frameOrientation).length
  then do
    let rigids ← processGroups dofsPositions (intRange containerPositions.length)
      (groupIndices.zip (resolveFrames groupIndices.length frames frameOrientation))
    let indexPairs ← flattenValues (buildKd containerPositions.length
      (setDiff (intRange containerPositions.length) groupIndices.flatten) groupIndices.flatten)
    let deformablePoints ← getAll containerPositions
      (setDiff (intRange containerPositions.length) groupIndices.flatten)
    let rigidifiedPoints ← getAll containerPositions groupIndices.flatten
    .ok { outName := name.getD sourceName, deformablePoints := deformablePoints,
          rigids := rigids, rigidifiedPoints := rigidifiedPoints,
          indicesMap := rigidIndexPerPoint groupIndices,
          otherIndices := setDiff (intRange containerPositions.length) groupIndices.flatten,
          selectedIndices := groupIndices.flatten, indexPairs := indexPairs,
          solverRemoved := true }
  else .error .sizeMismatchAssertion

theorem pyGet_ok {α : Type} (xs : List α) (i : ℤ) (d : α)
    (h0 : 0 ≤ i) (h1 : i < (xs.length : ℤ)) :
    pyGet xs i = .ok (xs.getD i.toNat d) := by
  have hb : i.toNat < xs.length := by omega
  rw [List.getD_eq_get _ _ hb]
  unfold pyGet
  rw [dif_pos ⟨h0, h1⟩]

theorem pyGet_error {α : Type} (xs : List α) (i : ℤ)
    (h : i < -(xs.length : ℤ) ∨ (xs.length : ℤ) ≤ i) :
    pyGet xs i = .error .indexError := by
  unfold pyGet
  rw [dif_neg (by omega), dif_neg (by omega)]

theorem mem_intRange {n : ℕ} {x : ℤ} : x ∈ intRange n ↔ 0 ≤ x ∧ x < (n : ℤ) := by
  unfold intRange
  rw [List.mem_map]
  constructor
  · rintro ⟨a, ha, rfl⟩
    rw [List.mem_range] at ha
    omega
  · rintro ⟨h0, h1⟩
    exact ⟨x.toNat, List.mem_range.mpr (by omega), by omega⟩

theorem length_intRange (n : ℕ) : (intRange n).length = n := by
  unfold intRange
  rw [List.length_map, List.length_range]

theorem nodup_intRange (n : ℕ) : (intRange n).Nodup := by
  unfold intRange
  refine List.Nodup.map ?_ (List.nodup_range n)
  intro a b h
  exact_mod_cast h

theorem intRange_getD {n i : ℕ} (h : i < n) (d : ℤ) :
    (intRange n).getD i d = (i : ℤ) := by
  have hl : i < (intRange n).length := by rw [length_intRange]; exact h
  rw [List.getD_eq_getElem _ _ hl]
  unfold intRange
  rw [List.getElem_map, List.getElem_range]

theorem getAll_ok {α : Type} (xs : List α) (d : α) (l : List ℤ)
    (h : ∀ i ∈ l, 0 ≤ i ∧ i < (xs.length : ℤ)) :
    getAll xs l = .ok (l.map (fun i => xs.getD i.toNat d)) := by
  induction l with
  | nil => rfl
  | cons i rest ih =>
    have h1 := h i (by simp)
    rw [getAll, pyGet_ok xs i d h1.1 h1.2, ih (fun j hj => h j (by simp [hj]))]
    rfl

theorem pyGet_some {α : Type} (xs : List α) (i : ℤ)
    (h : -(xs.length : ℤ) ≤ i ∧ i < (xs.length : ℤ)) :
    ∃ p, pyGet xs i = .ok p := by
  unfold pyGet
  by_cases h1 : 0 ≤ i ∧ i < (xs.length : ℤ)
  · rw [dif_pos h1]
    exact ⟨_, rfl⟩
  · rw [dif_neg h1, dif_pos (by omega)]
    exact ⟨_, rfl⟩

theorem getAll_error {α : Type} (xs : List α) (l : List ℤ)
    (h : ∃ i ∈ l, i < -(xs.length : ℤ) ∨ (xs.length : ℤ) ≤ i) :
    getAll xs l = .error .indexError := by
  induction l with
  | nil => simp at h
  | cons i rest ih =>
    obtain ⟨j, hj, hbad⟩ := h
    rw [getAll]
    rcases List.mem_cons.mp hj with rfl | hjr
    · rw [pyGet_error xs j hbad]
      rfl
    · by_cases hi : i < -(xs.length : ℤ) ∨ (xs.length : ℤ) ≤ i
      · rw [pyGet_error xs i hi]
        rfl
      · obtain ⟨p, hp⟩ := pyGet_some xs i (by omega)
        rw [hp, ih ⟨j, hjr, hbad⟩]
        rfl

theorem mfilter_ok {α : Type} (si : List ℤ) (pts : List α) (d : α) (ai : List ℤ)
    (h : ∀ i ∈ ai, 0 ≤ i ∧ i < (pts.length : ℤ)) :
    mfilter si pts ai =
      .ok ((ai.filter (fun i => decide (i ∈ si))).map (fun i => pts.getD i.toNat d)) := by
  induction ai with
  | nil => rfl
  | cons i rest ih =>
    have h1 := h i (by simp)
    have ih2 := ih (fun j hj => h j (by simp [hj]))
    by_cases hi : i ∈ si
    · rw [mfilter, if_pos hi, pyGet_ok pts i d h1.1 h1.2, ih2]
      simp [List.filter_cons, hi]
      rfl
    · rw [mfilter, if_neg hi, ih2]
      simp [List.filter_cons, hi]

theorem normSq4_quatMul (p q : Quat4) : normSq4 (quatMul p q) = normSq4 p * normSq4 q := by
  simp only [normSq4, quatMul]
  ring

theorem normSq4_xRot (t : ℝ) : normSq4 (xRot t) = 1 := by
  simp only [normSq4, xRot]
  have h := Real.sin_sq_add_cos_sq (t / 2)
  nlinarith [h]

theorem normSq4_yRot (t : ℝ) : normSq4 (yRot t) = 1 := by
  simp only [normSq4, yRot]
  have h := Real.sin_sq_add_cos_sq (t / 2)
  nlinarith [h]

theorem normSq4_zRot (t : ℝ) : normSq4 (zRot t) = 1 := by
  simp only [normSq4, zRot]
  have h := Real.sin_sq_add_cos_sq (t / 2)
  nlinarith [h]

theorem listNormSq_quatToList (q : Quat4) : listNormSq (quatToList q) = normSq4 q := by
  simp only [listNormSq, quatToList, normSq4, List.map_cons, List.map_nil, List.sum_cons,
    List.sum_nil]
  ring

theorem listNormSq_createFromEuler (rx ry rz : ℝ) :
    listNormSq (createFromEuler rx ry rz) = 1 := by
  rw [createFromEuler, listNormSq_quatToList, normSq4_quatMul, normSq4_quatMul,
    normSq4_xRot, normSq4_yRot, normSq4_zRot]
  ring

theorem synthFrame_arity3 (frame : List ℝ) (sel : List Point)
    (h : frame.length = 3) (hne : sel ≠ []) :
    synthFrame frame sel =
      .ok (pointToList (mean3 sel) ++
        createFromEuler (frame.getD 0 0) (frame.getD 1 0) (frame.getD 2 0)) := by
  have hz : sel.length ≠ 0 := fun hc => hne (List.length_eq_zero.mp hc)
  rw [synthFrame, if_pos h, getBarycenter, if_neg hz]
  rfl

theorem synthFrame_arity4 (frame : List ℝ) (sel : List Point)
    (h : frame.length = 4) (hne : sel ≠ []) :
    synthFrame frame sel = .ok (pointToList (mean3 sel) ++ frame) := by
  have hz : sel.length ≠ 0 := fun hc => hne (List.length_eq_zero.mp hc)
  rw [synthFrame, if_neg (by omega), if_pos h, getBarycenter, if_neg hz]
  rfl

theorem synthFrame_arity34_empty (frame : List ℝ)
    (h : frame.length = 3 ∨ frame.length = 4) :
    synthFrame frame [] = .error .emptyInputError := by
  rcases h with h | h
  · rw [synthFrame, if_pos h, getBarycenter]
    rfl
  · rw [synthFrame, if_neg (by omega), if_pos h, getBarycenter]
    rfl

theorem synthFrame_arity6 (frame : List ℝ) (sel : List Point) (h : frame.length = 6) :
    synthFrame frame sel =
      .ok (frame.take 3 ++
        createFromEuler (frame.getD 3 0) (frame.getD 4 0) (frame.getD 5 0)) := by
  rw [synthFrame, if_neg (by omega), if_neg (by omega), if_pos h]

theorem synthFrame_arity7 (frame : List ℝ) (sel : List Point) (h : frame.length = 7) :
    synthFrame frame sel = .ok (frame.take 3 ++ frame.drop 3) := by
  rw [synthFrame, if_neg (by omega), if_neg (by omega), if_neg (by omega), if_pos h]

theorem synthFrame_badArity (frame : List ℝ) (sel : List Point)
    (h : frame.length ≠ 3) (h4 : frame.length ≠ 4) (h6 : frame.length ≠ 6)
    (h7 : frame.length ≠ 7) :
    synthFrame frame sel = .error .frameFormatError := by
  rw [synthFrame, if_neg h, if_neg h4, if_neg h6, if_neg h7]

theorem synthFrame_ok_of_good (frame : List ℝ) (sel : List Point)
    (hgood : frame.length = 3 ∨ frame.length = 4 ∨ frame.length = 6 ∨ frame.length = 7)
    (hne : (frame.length = 3 ∨ frame.length = 4) → sel ≠ []) :
    ∃ r, synthFrame frame sel = .ok r := by
  rcases hgood with h | h | h | h
  · exact ⟨_, synthFrame_arity3 frame sel h (hne (Or.inl h))⟩
  · exact ⟨_, synthFrame_arity4 frame sel h (hne (Or.inr h))⟩
  · exact ⟨_, synthFrame_arity6 frame sel h⟩
  · exact ⟨_, synthFrame_arity7 frame sel h⟩

theorem okBind {ε α β : Type} (a : α) (f : α → Except ε β) :
    (Except.ok a >>= f) = f a := rfl

theorem errorBind {ε α β : Type} (e : ε) (f : α → Except ε β) :
    (Except.error e >>= f) = Except.error e := rfl

theorem processGroups_inv (pts : List Point) (ai : List ℤ)
    (pairs : List (List ℤ × List ℝ)) :
    ∀ rs, processGroups pts ai pairs = .ok rs →
    rs.length = pairs.length ∧
    ∀ j, j < pairs.length →
      ∃ sel, mfilter (pairs.getD j ([], [])).1 pts ai = .ok sel ∧
        synthFrame (pairs.getD j ([], [])).2 sel = .ok (rs.getD j []) := by
  induction pairs with
  | nil =>
    intro rs h
    simp only [processGroups] at h
    cases h
    exact ⟨rfl, fun j hj => absurd hj (by simp)⟩
  | cons p rest ih =>
    intro rs h
    obtain ⟨g, f⟩ := p
    simp only [processGroups] at h
    cases hm : mfilter g pts ai with
    | error e => rw [hm, errorBind] at h; cases h
    | ok sel =>
      rw [hm, okBind] at h
      cases hs : synthFrame f sel with
      | error e => rw [hs, errorBind] at h; cases h
      | ok r =>
        rw [hs, okBind] at h
        cases hr : processGroups pts ai rest with
        | error e => rw [hr, errorBind] at h; cases h
        | ok tl =>
          rw [hr, okBind] at h
          cases h
          obtain ⟨hlen, hpt⟩ := ih tl hr
          refine ⟨by simp [hlen], ?_⟩
          intro j hj
          cases j with
          | zero => exact ⟨sel, by simpa using hm, by simpa using hs⟩
          | succ k =>
            have hk : k < rest.length := by simpa using hj
            obtain ⟨sel2, h1, h2⟩ := hpt k hk
            exact ⟨sel2, by simpa using h1, by simpa using h2⟩

theorem processGroups_ok (pts : List Point) (ai : List ℤ)
    (pairs : List (List ℤ × List ℝ))
    (hai : ∀ i ∈ ai, 0 ≤ i ∧ i < (pts.length : ℤ))
    (hp : ∀ p ∈ pairs,
      (p.2.length = 3 ∨ p.2.length = 4 ∨ p.2.length = 6 ∨ p.2.length = 7) ∧
      ((p.2.length = 3 ∨ p.2.length = 4) → ∃ i ∈ p.1, i ∈ ai)) :
    ∃ rs, processGroups pts ai pairs = .ok rs := by
  induction pairs with
  | nil => exact ⟨[], rfl⟩
  | cons p rest ih =>
    obtain ⟨g, f⟩ := p
    obtain ⟨hgood, hne⟩ := hp (g, f) (by simp)
    have hm := mfilter_ok g pts ((0 : ℝ), (0 : ℝ), (0 : ℝ)) ai hai
    have hner : (f.length = 3 ∨ f.length = 4) →
        ((ai.filter (fun i => decide (i ∈ g))).map
          (fun i => pts.getD i.toNat ((0 : ℝ), (0 : ℝ), (0 : ℝ)))) ≠ [] := by
      intro h34
      obtain ⟨i, hig, hiai⟩ := hne h34
      have hmem : i ∈ ai.filter (fun i => decide (i ∈ g)) :=
        List.mem_filter.mpr ⟨hiai, by simpa using hig⟩
      exact List.ne_nil_of_mem (List.mem_map_of_mem _ hmem)
    obtain ⟨r, hr⟩ := synthFrame_ok_of_good f _ hgood hner
    obtain ⟨tl, htl⟩ := ih (fun q hq => hp q (by simp [hq]))
    refine ⟨r :: tl, ?_⟩
    simp only [processGroups]
    rw [hm, okBind, hr, okBind, htl, okBind]

theorem processGroups_err (pts : List Point) (ai : List ℤ)
    (hai : ∀ i ∈ ai, 0 ≤ i ∧ i < (pts.length : ℤ)) :
    ∀ (pairs : List (List ℤ × List ℝ)) (j : ℕ), j < pairs.length →
    (∀ k, k < j →
      ((pairs.getD k ([], [])).2.length = 3 ∨ (pairs.getD k ([], [])).2.length = 4 ∨
        (pairs.getD k ([], [])).2.length = 6 ∨ (pairs.getD k ([], [])).2.length = 7) ∧
      (((pairs.getD k ([], [])).2.length = 3 ∨ (pairs.getD k ([], [])).2.length = 4) →
        ∃ i ∈ (pairs.getD k ([], [])).1, i ∈ ai)) →
    ((pairs.getD j ([], [])).2.length ≠ 3 ∧ (pairs.getD j ([], [])).2.length ≠ 4 ∧
      (pairs.getD j ([], [])).2.length ≠ 6 ∧ (pairs.getD j ([], [])).2.length ≠ 7) →
    processGroups pts ai pairs = .error .frameFormatError := by
  intro pairs
  induction pairs with
  | nil => intro j hj; simp at hj
  | cons p rest ih =>
    intro j hj hpre hbad
    obtain ⟨g, f⟩ := p
    have hm := mfilter_ok g pts ((0 : ℝ), (0 : ℝ), (0 : ℝ)) ai hai
    cases j with
    | zero =>
      simp only [List.getD_cons_zero] at hbad
      simp only [processGroups]
      rw [hm, okBind, synthFrame_badArity f _ hbad.1 hbad.2.1 hbad.2.2.1 hbad.2.2.2,
        errorBind]
    | succ k =>
      have hhead := hpre 0 (Nat.succ_pos k)
      simp only [List.getD_cons_zero] at hhead
      obtain ⟨hgood, hne⟩ := hhead
      have hner : (f.length = 3 ∨ f.length = 4) →
          ((ai.filter (fun i => decide (i ∈ g))).map
            (fun i => pts.getD i.toNat ((0 : ℝ), (0 : ℝ), (0 : ℝ)))) ≠ [] := by
        intro h34
        obtain ⟨i, hig, hiai⟩ := hne h34
        have hmem : i ∈ ai.filter (fun i => decide (i ∈ g)) :=
          List.mem_filter.mpr ⟨hiai, by simpa using hig⟩
        exact List.ne_nil_of_mem (List.mem_map_of_mem _ hmem)
      obtain ⟨r, hr⟩ := synthFrame_ok_of_good f _ hgood hner
      have hrec := ih k (by simpa using hj)
        (fun m hm2 => by simpa using hpre (m + 1) (by omega))
        (by simpa using hbad)
      simp only [processGroups]
      rw [hm, okBind, hr, okBind, hrec, errorBind]

/-- Canonical shape of a dict whose keys are the list `base` (in order)
and whose value at key `u` is `f u`. -/
def pyDictRep (base : List ℤ) (f : ℤ → Option (List ℕ)) : List (ℤ × Option (List ℕ)) :=
  base.map (fun v => (v, f v))

theorem pyDictRep_congr {b1 b2 : List ℤ} {f1 f2 : ℤ → Option (List ℕ)}
    (hb : b1 = b2) (hf : ∀ u, f1 u = f2 u) : pyDictRep b1 f1 = pyDictRep b2 f2 := by
  subst hb
  exact List.map_congr_left (fun a _ => by rw [hf a])

theorem pyDictHasKey_rep (base : List ℤ) (f : ℤ → Option (List ℕ)) (k : ℤ) :
    pyDictHasKey (pyDictRep base f) k = true ↔ k ∈ base := by
  simp only [pyDictHasKey, pyDictRep, List.any_eq_true, List.mem_map]
  constructor
  · rintro ⟨kv, ⟨v, hv, rfl⟩, he⟩
    simpa using (by simpa using he : v = k) ▸ hv
  · intro hk
    exact ⟨(k, f k), ⟨k, hk, rfl⟩, by simp⟩

theorem pyDictInsert_mem (base : List ℤ) (f : ℤ → Option (List ℕ)) (k : ℤ)
    (v : Option (List ℕ)) (hk : k ∈ base) :
    pyDictInsert (pyDictRep base f) k v =
      pyDictRep base (fun u => if u = k then v else f u) := by
  unfold pyDictInsert
  rw [if_pos ((pyDictHasKey_rep base f k).mpr hk)]
  unfold pyDictRep
  rw [List.map_map]
  refine List.map_congr_left ?_
  intro u _
  by_cases h : u = k
  · simp [h]
  · simp [h]

theorem pyDictInsert_fresh (base : List ℤ) (f : ℤ → Option (List ℕ)) (k : ℤ)
    (v : Option (List ℕ)) (hk : k ∉ base) :
    pyDictInsert (pyDictRep base f) k v =
      pyDictRep (base ++ [k]) (fun u => if u = k then v else f u) := by
  unfold pyDictInsert
  rw [if_neg (fun hc => hk ((pyDictHasKey_rep base f k).mp hc))]
  unfold pyDictRep
  rw [List.map_append]
  congr 1
  · refine List.map_congr_left ?_
    intro u hu
    have hne : u ≠ k := fun e => hk (e ▸ hu)
    simp [hne]
  · simp

theorem pyDictUpdateFrom_rep (tag : ℕ) :
    ∀ (xs : List ℤ) (k : ℕ) (base : List ℤ) (f : ℤ → Option (List ℕ)),
    xs.Nodup → base.Nodup →
    pyDictUpdateFrom tag k (pyDictRep base f) xs =
      pyDictRep (base ++ xs.filter (fun x => decide (x ∉ base)))
        (fun u => if u ∈ xs then some [tag, k + xs.indexOf u] else f u) := by
  intro xs
  induction xs with
  | nil =>
    intro k base f _ _
    simp only [pyDictUpdateFrom, List.filter_nil, List.append_nil]
    refine pyDictRep_congr rfl ?_
    intro u
    simp
  | cons x rest ih =>
    intro k base f hxs hbase
    have hxrest : x ∉ rest := (List.nodup_cons.mp hxs).1
    have hrest : rest.Nodup := (List.nodup_cons.mp hxs).2
    simp only [pyDictUpdateFrom]
    by_cases hx : x ∈ base
    · rw [pyDictInsert_mem base f x _ hx, ih (k + 1) base _ hrest hbase]
      have hfilt : (x :: rest).filter (fun y => decide (y ∉ base)) =
          rest.filter (fun y => decide (y ∉ base)) := by
        rw [List.filter_cons]
        simp [hx]
      rw [hfilt]
      refine pyDictRep_congr rfl ?_
      intro u
      by_cases hur : u ∈ rest
      · have hxu : x ≠ u := fun e => hxrest (e ▸ hur)
        rw [if_pos hur, if_pos (List.mem_cons_of_mem x hur), List.indexOf_cons_ne rest hxu]
        have harith : k + (rest.indexOf u).succ = k + 1 + rest.indexOf u := by omega
        rw [harith]
      · by_cases hux : u = x
        · subst hux
          rw [if_neg hur, if_pos rfl, if_pos (List.mem_cons_self u rest),
            List.indexOf_cons_self]
          rw [Nat.add_zero]
        · rw [if_neg hur, if_neg hux,
            if_neg (by simp [hur, hux, List.mem_cons])]
    · rw [pyDictInsert_fresh base f x _ hx,
        ih (k + 1) (base ++ [x]) _ hrest
          (by
            rw [List.nodup_append]
            exact ⟨hbase, List.nodup_singleton x, by simpa using hx⟩)]
      have hfilt : (x :: rest).filter (fun y => decide (y ∉ base)) =
          x :: rest.filter (fun y => decide (y ∉ base)) := by
        rw [List.filter_cons]
        simp [hx]
      rw [hfilt, List.append_cons base x (rest.filter (fun y => decide (y ∉ base)))]
      have hfilt2 : rest.filter (fun y => decide (y ∉ base ++ [x])) =
          rest.filter (fun y => decide (y ∉ base)) := by
        refine List.filter_congr ?_
        intro u hu
        have hux : u ≠ x := fun e => hxrest (e ▸ hu)
        simp [hux]
      rw [hfilt2]
      refine pyDictRep_congr rfl ?_
      intro u
      by_cases hur : u ∈ rest
      · have hxu : x ≠ u := fun e => hxrest (e ▸ hur)
        rw [if_pos hur, if_pos (List.mem_cons_of_mem x hur), List.indexOf_cons_ne rest hxu]
        have harith : k + (rest.indexOf u).succ = k + 1 + rest.indexOf u := by omega
        rw [harith]
      · by_cases hux : u = x
        · subst hux
          rw [if_neg hur, if_pos rfl, if_pos (List.mem_cons_self u rest),
            List.indexOf_cons_self]
          rw [Nat.add_zero]
        · rw [if_neg hur, if_neg hux,
            if_neg (by simp [hur, hux, List.mem_cons])]

theorem pyDictInsertNone_rep :
    ∀ (l : List ℤ) (base : List ℤ) (f : ℤ → Option (List ℕ)),
    l.Nodup → base.Nodup → (∀ x ∈ l, x ∉ base) →
    pyDictInsertNone (pyDictRep base f) l =
      pyDictRep (base ++ l) (fun u => if u ∈ l then none else f u) := by
  intro l
  induction l with
  | nil =>
    intro base f _ _ _
    simp only [pyDictInsertNone, List.append_nil]
    refine pyDictRep_congr rfl ?_
    intro u
    simp
  | cons x rest ih =>
    intro base f hl hbase hdisj
    have hxrest : x ∉ rest := (List.nodup_cons.mp hl).1
    have hrest : rest.Nodup := (List.nodup_cons.mp hl).2
    have hxbase : x ∉ base := hdisj x (by simp)
    simp only [pyDictInsertNone]
    rw [pyDictInsert_fresh base f x none hxbase,
      ih (base ++ [x]) _ hrest
        (by
          rw [List.nodup_append]
          exact ⟨hbase, List.nodup_singleton x, by simpa using hxbase⟩)
        (by
          intro y hy
          have hyx : y ≠ x := fun e => hxrest (e ▸ hy)
          simp [hyx, hdisj y (by simp [hy])]),
      List.append_cons base x rest]
    refine pyDictRep_congr rfl ?_
    intro u
    by_cases hur : u ∈ rest
    · rw [if_pos hur, if_pos (List.mem_cons_of_mem x hur)]
    · by_cases hux : u = x
      · subst hux
        rw [if_neg hur, if_pos rfl, if_pos (List.mem_cons_self u rest)]
      · rw [if_neg hur, if_neg hux, if_neg (by simp [hur, hux, List.mem_cons])]

theorem pyDictOfNone_rep (l : List ℤ) (hl : l.Nodup) :
    pyDictOfNone l = pyDictRep l (fun _ => none) := by
  unfold pyDictOfNone
  have h0 : ([] : List (ℤ × Option (List ℕ))) = pyDictRep [] (fun _ => none) := rfl
  rw [h0, pyDictInsertNone_rep l [] _ hl List.nodup_nil (by simp)]
  refine pyDictRep_congr (by simp) ?_
  intro u
  exact ite_self none

theorem pyDictInsert_entry (d : List (ℤ × Option (List ℕ))) (k : ℤ)
    (v : Option (List ℕ)) (kv : ℤ × Option (List ℕ)) (h : kv ∈ pyDictInsert d k v) :
    kv.2 = v ∨ (kv ∈ d ∧ kv.1 ≠ k) := by
  unfold pyDictInsert at h
  by_cases hk : pyDictHasKey d k = true
  · rw [if_pos hk] at h
    obtain ⟨kv0, hkv0, he⟩ := List.mem_map.mp h
    by_cases h0 : kv0.1 = k
    · rw [if_pos h0] at he
      left
      rw [← he]
    · rw [if_neg h0] at he
      right
      exact ⟨he ▸ hkv0, he ▸ h0⟩
  · rw [if_neg hk] at h
    rcases List.mem_append.mp h with hd | hs
    · right
      refine ⟨hd, ?_⟩
      intro he
      apply hk
      unfold pyDictHasKey
      rw [List.any_eq_true]
      exact ⟨kv, hd, by simp [he]⟩
    · left
      have : kv = (k, v) := by simpa using hs
      rw [this]

theorem pyDictUpdateFrom_entry (tag : ℕ) :
    ∀ (xs : List ℤ) (k : ℕ) (d : List (ℤ × Option (List ℕ))) (kv : ℤ × Option (List ℕ)),
    kv ∈ pyDictUpdateFrom tag k d xs →
    (∃ m, kv.2 = some [tag, m]) ∨ (kv ∈ d ∧ kv.1 ∉ xs) := by
  intro xs
  induction xs with
  | nil =>
    intro k d kv h
    right
    exact ⟨h, by simp⟩
  | cons x rest ih =>
    intro k d kv h
    simp only [pyDictUpdateFrom] at h
    rcases ih (k + 1) _ kv h with hs | ⟨hmem, hnot⟩
    · exact Or.inl hs
    rcases pyDictInsert_entry d x (some [tag, k]) kv hmem with hv | ⟨hd, hne⟩
    · exact Or.inl ⟨k, hv⟩
    · right
      exact ⟨hd, by simp [hne, hnot]⟩

theorem flattenValues_ok_of (d : List (ℤ × Option (List ℕ)))
    (h : ∀ kv ∈ d, kv.2 ≠ none) : ∃ l, flattenValues d = .ok l := by
  induction d with
  | nil => exact ⟨[], rfl⟩
  | cons kv rest ih =>
    obtain ⟨k, w⟩ := kv
    cases w with
    | none => exact absurd rfl (h (k, none) (by simp))
    | some val =>
      obtain ⟨tl, htl⟩ := ih (fun kv2 hkv2 => h kv2 (by simp [hkv2]))
      refine ⟨val ++ tl, ?_⟩
      simp only [flattenValues]
      rw [htl, okBind]

theorem flattenValues_rep (base : List ℤ) (f : ℤ → Option (List ℕ)) (g : ℤ → List ℕ)
    (h : ∀ u ∈ base, f u = some (g u)) :
    flattenValues (pyDictRep base f) = .ok (base.flatMap g) := by
  induction base with
  | nil => rfl
  | cons u rest ih =>
    have hu := h u (by simp)
    simp only [pyDictRep, List.map_cons] at ih ⊢
    rw [hu]
    simp only [flattenValues]
    rw [ih (fun v hv => h v (by simp [hv])), okBind, List.flatMap_cons]

theorem kd_rep (n : ℕ) (other sel : List ℤ)
    (hothernd : other.Nodup) (hselnd : sel.Nodup)
    (hothersub : ∀ x ∈ other, x ∈ intRange n) (hselsub : ∀ x ∈ sel, x ∈ intRange n) :
    pyDictUpdateFrom 1 0 (pyDictUpdateFrom 0 0 (pyDictOfNone (intRange n)) other) sel =
      pyDictRep (intRange n)
        (fun u => if u ∈ sel then some [1, sel.indexOf u]
          else if u ∈ other then some [0, other.indexOf u] else none) := by
  rw [pyDictOfNone_rep _ (nodup_intRange n),
    pyDictUpdateFrom_rep 0 other 0 (intRange n) _ hothernd (nodup_intRange n)]
  have hf1 : other.filter (fun x => decide (x ∉ intRange n)) = [] := by
    rw [List.filter_eq_nil_iff]
    intro x hx
    simpa using hothersub x hx
  rw [hf1, List.append_nil,
    pyDictUpdateFrom_rep 1 sel 0 (intRange n) _ hselnd (nodup_intRange n)]
  have hf2 : sel.filter (fun x => decide (x ∉ intRange n)) = [] := by
    rw [List.filter_eq_nil_iff]
    intro x hx
    simpa using hselsub x hx
  rw [hf2, List.append_nil]
  refine pyDictRep_congr rfl ?_
  intro u
  by_cases hu : u ∈ sel
  · simp [hu]
  · by_cases hu2 : u ∈ other
    · simp [hu, hu2]
    · simp [hu, hu2]

theorem kd_values_some (n : ℕ) (sel other : List ℤ)
    (hother : ∀ x, x ∈ other ↔ (x ∈ intRange n ∧ x ∉ sel))
    (kv : ℤ × Option (List ℕ))
    (hkv : kv ∈ pyDictUpdateFrom 1 0
      (pyDictUpdateFrom 0 0 (pyDictOfNone (intRange n)) other) sel) :
    kv.2 ≠ none := by
  rcases pyDictUpdateFrom_entry 1 sel 0 _ kv hkv with ⟨m, hm⟩ | ⟨hkv1, hnotsel⟩
  · simp [hm]
  rcases pyDictUpdateFrom_entry 0 other 0 _ kv hkv1 with ⟨m, hm⟩ | ⟨hkv0, hnototh⟩
  · simp [hm]
  rw [pyDictOfNone_rep _ (nodup_intRange n)] at hkv0
  obtain ⟨u, hu, he⟩ := List.mem_map.mp hkv0
  exfalso
  apply hnototh
  rw [← he] at hnotsel ⊢
  exact (hother u).mpr ⟨hu, hnotsel⟩

theorem flatMap_len2 (g : ℤ → List ℕ) :
    ∀ (l : List ℤ), (∀ u ∈ l, (g u).length = 2) → (l.flatMap g).length = 2 * l.length := by
  intro l
  induction l with
  | nil => intro _; rfl
  | cons u rest ih =>
    intro h
    rw [List.flatMap_cons, List.length_append, h u (by simp),
      ih (fun v hv => h v (by simp [hv]))]
    simp only [List.length_cons]
    omega

theorem flatMap_getD2 (g : ℤ → List ℕ) (d : ℕ) (dz : ℤ) :
    ∀ (l : List ℤ), (∀ u ∈ l, (g u).length = 2) →
    ∀ (i j : ℕ), i < l.length → j < 2 →
    (l.flatMap g).getD (2 * i + j) d = (g (l.getD i dz)).getD j d := by
  intro l
  induction l with
  | nil => intro _ i j hi; simp at hi
  | cons u rest ih =>
    intro h i j hi hj
    rw [List.flatMap_cons]
    cases i with
    | zero =>
      have hlen := h u (by simp)
      rw [List.getD_append _ _ _ _ (by omega), List.getD_cons_zero]
      norm_num
    | succ k =>
      have hlen := h u (by simp)
      have hidx : 2 * (k + 1) + j = (g u).length + (2 * k + j) := by omega
      rw [hidx, List.getD_append_right _ _ _ _ (by omega), Nat.add_sub_cancel_left,
        List.getD_cons_succ, ih (fun v hv => h v (by simp [hv])) k j (by simpa using hi) hj]

theorem resolveFrames_some_none (n : ℕ) (fs : List (List ℝ)) :
    resolveFrames n (some fs) none = fs := rfl

theorem pyRigidify_inv (sd : List ℤ → List ℤ → List ℤ) (cp dp : List Point)
    (groups : List (List ℤ)) (fs : List (List ℝ)) (nm : Option String) (sn : String)
    (b : Bool) (out : RigidifyOut)
    (hok : pyRigidify sd cp dp groups (some fs) nm none sn b = .ok out) :
    groups.length = fs.length ∧
    ∃ rigids ips dfp rgp,
      processGroups dp (intRange cp.length) (groups.zip fs) = .ok rigids ∧
      flattenValues (buildKd cp.length (sd (intRange cp.length) groups.flatten)
        groups.flatten) = .ok ips ∧
      getAll cp (sd (intRange cp.length) groups.flatten) = .ok dfp ∧
      getAll cp groups.flatten = .ok rgp ∧
      out = ⟨nm.getD sn, dfp, rigids, rgp, rigidIndexPerPoint groups,
        sd (intRange cp.length) groups.flatten, groups.flatten, ips, true⟩ := by
  unfold pyRigidify at hok
  rw [resolveFrames_some_none] at hok
  by_cases hlen : groups.length = fs.length
  · refine ⟨hlen, ?_⟩
    rw [if_pos hlen] at hok
    cases hr : processGroups dp (intRange cp.length) (groups.zip fs) with
    | error e => rw [hr, errorBind] at hok; cases hok
    | ok rigids =>
      rw [hr, okBind] at hok
      cases hip : flattenValues (buildKd cp.length (sd (intRange cp.length) groups.flatten)
          groups.flatten) with
      | error e => rw [hip, errorBind] at hok; cases hok
      | ok ips =>
        rw [hip, okBind] at hok
        cases hdf : getAll cp (sd (intRange cp.length) groups.flatten) with
        | error e => rw [hdf, errorBind] at hok; cases hok
        | ok dfp =>
          rw [hdf, okBind] at hok
          cases hrg : getAll cp groups.flatten with
          | error e => rw [hrg, errorBind] at hok; cases hok
          | ok rgp =>
            rw [hrg, okBind] at hok
            cases hok
            exact ⟨rigids, ips, dfp, rgp, rfl, rfl, rfl, rfl, rfl⟩
  · rw [if_neg hlen] at hok
    cases hok

theorem pyRigidify_okRun (sd : List ℤ → List ℤ → List ℤ) (cp dp : List Point)
    (groups : List (List ℤ)) (fs : List (List ℝ)) (nm : Option String) (sn : String)
    (b : Bool)
    (hsd : SetDiffSpec sd)
    (hlen : groups.length = fs.length)
    (hdp : dp.length = cp.length)
    (hrange : ∀ g ∈ groups, ∀ i ∈ g, 0 ≤ i ∧ i < (cp.length : ℤ))
    (harit : ∀ f ∈ fs, f.length = 3 ∨ f.length = 4 ∨ f.length = 6 ∨ f.length = 7)
    (hne : ∀ p ∈ groups.zip fs, (p.2.length = 3 ∨ p.2.length = 4) → p.1 ≠ []) :
    ∃ out, pyRigidify sd cp dp groups (some fs) nm none sn b = .ok out := by
  have hai : ∀ i ∈ intRange cp.length, 0 ≤ i ∧ i < (dp.length : ℤ) := by
    intro i hi
    rw [hdp]
    exact mem_intRange.mp hi
  have hp : ∀ p ∈ groups.zip fs,
      (p.2.length = 3 ∨ p.2.length = 4 ∨ p.2.length = 6 ∨ p.2.length = 7) ∧
      ((p.2.length = 3 ∨ p.2.length = 4) → ∃ i ∈ p.1, i ∈ intRange cp.length) := by
    intro p hpz
    obtain ⟨g, f⟩ := p
    have h1 := List.of_mem_zip hpz
    refine ⟨harit f h1.2, ?_⟩
    intro h34
    obtain ⟨i, hi⟩ := List.exists_mem_of_ne_nil g (hne (g, f) hpz h34)
    exact ⟨i, hi, mem_intRange.mpr (hrange g h1.1 i hi)⟩
  obtain ⟨rigids, hrig⟩ := processGroups_ok dp (intRange cp.length) (groups.zip fs) hai hp
  have hsome : ∀ kv ∈ buildKd cp.length (sd (intRange cp.length) groups.flatten)
      groups.flatten, kv.2 ≠ none := by
    intro kv hkv
    unfold buildKd at hkv
    exact kd_values_some cp.length groups.flatten _
      (fun x => (hsd (intRange cp.length) groups.flatten).2 x) kv hkv
  obtain ⟨ips, hips⟩ := flattenValues_ok_of _ hsome
  have hobnd : ∀ i ∈ sd (intRange cp.length) groups.flatten,
      0 ≤ i ∧ i < (cp.length : ℤ) := by
    intro i hi
    exact mem_intRange.mp (((hsd _ _).2 i).mp hi).1
  have hdf := getAll_ok cp ((0 : ℝ), (0 : ℝ), (0 : ℝ)) _ hobnd
  have hsbnd : ∀ i ∈ groups.flatten, 0 ≤ i ∧ i < (cp.length : ℤ) := by
    intro i hi
    obtain ⟨g, hg, hig⟩ := List.mem_flatten.mp hi
    exact hrange g hg i hig
  have hrg := getAll_ok cp ((0 : ℝ), (0 : ℝ), (0 : ℝ)) _ hsbnd
  apply Exists.intro
  unfold pyRigidify
  rw [resolveFrames_some_none, if_pos hlen, hrig, okBind, hips, okBind, hdf, okBind,
    hrg, okBind]

theorem pyRigidify_of_processErr (sd : List ℤ → List ℤ → List ℤ) (cp dp : List Point)
    (groups : List (List ℤ)) (fs : List (List ℝ)) (nm : Option String) (sn : String)
    (b : Bool) (e : PyErr)
    (hlen : groups.length = fs.length)
    (herr : processGroups dp (intRange cp.length) (groups.zip fs) = .error e) :
    pyRigidify sd cp dp groups (some fs) nm none sn b = .error e := by
  unfold pyRigidify
  rw [resolveFrames_some_none, if_pos hlen, herr, errorBind]

theorem pyRigidify_indexErr (sd : List ℤ → List ℤ → List ℤ) (cp dp : List Point)
    (groups : List (List ℤ)) (fs : List (List ℝ)) (nm : Option String) (sn : String)
    (b : Bool)
    (hsd : SetDiffSpec sd)
    (hlen : groups.length = fs.length)
    (hdp : dp.length = cp.length)
    (harit67 : ∀ f ∈ fs, f.length = 6 ∨ f.length = 7)
    (hbad : ∃ i ∈ groups.flatten, i < -(cp.length : ℤ) ∨ (cp.length : ℤ) ≤ i) :
    pyRigidify sd cp dp groups (some fs) nm none sn b = .error .indexError := by
  have hai : ∀ i ∈ intRange cp.length, 0 ≤ i ∧ i < (dp.length : ℤ) := by
    intro i hi
    rw [hdp]
    exact mem_intRange.mp hi
  have hp : ∀ p ∈ groups.zip fs,
      (p.2.length = 3 ∨ p.2.length = 4 ∨ p.2.length = 6 ∨ p.2.length = 7) ∧
      ((p.2.length = 3 ∨ p.2.length = 4) → ∃ i ∈ p.1, i ∈ intRange cp.length) := by
    intro p hpz
    obtain ⟨g, f⟩ := p
    have h1 := List.of_mem_zip hpz
    rcases harit67 f h1.2 with h6 | h7
    · exact ⟨Or.inr (Or.inr (Or.inl h6)),
        fun h34 => False.elim (by rcases h34 with h | h <;> simp [h6] at h)⟩
    · exact ⟨Or.inr (Or.inr (Or.inr h7)),
        fun h34 => False.elim (by rcases h34 with h | h <;> simp [h7] at h)⟩
  obtain ⟨rigids, hrig⟩ := processGroups_ok dp (intRange cp.length) (groups.zip fs) hai hp
  have hsome : ∀ kv ∈ buildKd cp.length (sd (intRange cp.length) groups.flatten)
      groups.flatten, kv.2 ≠ none := by
    intro kv hkv
    unfold buildKd at hkv
    exact kd_values_some cp.length groups.flatten _
      (fun x => (hsd (intRange cp.length) groups.flatten).2 x) kv hkv
  obtain ⟨ips, hips⟩ := flattenValues_ok_of _ hsome
  have hobnd : ∀ i ∈ sd (intRange cp.length) groups.flatten,
      0 ≤ i ∧ i < (cp.length : ℤ) := by
    intro i hi
    exact mem_intRange.mp (((hsd _ _).2 i).mp hi).1
  have hdf := getAll_ok cp ((0 : ℝ), (0 : ℝ), (0 : ℝ)) _ hobnd
  have hsel := getAll_error cp groups.flatten hbad
  unfold pyRigidify
  rw [resolveFrames_some_none, if_pos hlen, hrig, okBind, hips, okBind, hdf, okBind,
    hsel, errorBind]

theorem zip_getD {α β : Type} (l1 : List α) (l2 : List β) (k : ℕ) (d1 : α) (d2 : β)
    (h1 : k < l1.length) (h2 : k < l2.length) :
    (l1.zip l2).getD k (d1, d2) = (l1.getD k d1, l2.getD k d2) := by
  have hz : k < (l1.zip l2).length := by rw [List.length_zip]; omega
  rw [List.getD_eq_getElem _ _ hz, List.getD_eq_getElem _ _ h1,
    List.getD_eq_getElem _ _ h2, List.getElem_zip]

theorem getD_map {α β : Type} (f : α → β) (l : List α) (k : ℕ) (d : β) (d2 : α)
    (h : k < l.length) :
    (l.map f).getD k d = f (l.getD k d2) := by
  rw [List.getD_eq_getElem _ _ (by simpa using h), List.getD_eq_getElem _ _ h,
    List.getElem_map]

theorem getD_indexOf (l : List ℤ) (x : ℤ) (d : ℤ) (h : x ∈ l) :
    l.getD (l.indexOf x) d = x := by
  rw [List.getD_eq_getElem _ _ (List.indexOf_lt_length.mpr h)]
  exact List.getElem_indexOf _

theorem synthFrame_inv3 (f : List ℝ) (sel : List Point) (r : List ℝ)
    (h : f.length = 3) (hok : synthFrame f sel = .ok r) :
    sel ≠ [] ∧
      r = pointToList (mean3 sel) ++
        createFromEuler (f.getD 0 0) (f.getD 1 0) (f.getD 2 0) := by
  by_cases hne : sel = []
  · subst hne
    rw [synthFrame_arity34_empty f (Or.inl h)] at hok
    cases hok
  · rw [synthFrame_arity3 f sel h hne] at hok
    cases hok
    exact ⟨hne, rfl⟩

theorem synthFrame_inv4 (f : List ℝ) (sel : List Point) (r : List ℝ)
    (h : f.length = 4) (hok : synthFrame f sel = .ok r) :
    sel ≠ [] ∧ r = pointToList (mean3 sel) ++ f := by
  by_cases hne : sel = []
  · subst hne
    rw [synthFrame_arity34_empty f (Or.inr h)] at hok
    cases hok
  · rw [synthFrame_arity4 f sel h hne] at hok
    cases hok
    exact ⟨hne, rfl⟩

theorem synthFrame_inv6 (f : List ℝ) (sel : List Point) (r : List ℝ)
    (h : f.length = 6) (hok : synthFrame f sel = .ok r) :
    r = f.take 3 ++ createFromEuler (f.getD 3 0) (f.getD 4 0) (f.getD 5 0) := by
  rw [synthFrame_arity6 f sel h] at hok
  cases hok
  rfl

theorem synthFrame_inv7 (f : List ℝ) (sel : List Point) (r : List ℝ)
    (h : f.length = 7) (hok : synthFrame f sel = .ok r) :
    r = f.take 3 ++ f.drop 3 := by
  rw [synthFrame_arity7 f sel h] at hok
  cases hok
  rfl

theorem drop3_append (l1 l2 : List ℝ) (h : l1.length = 3) : (l1 ++ l2).drop 3 = l2 := by
  rw [← h, List.drop_left]

theorem ips_decode (sd : List ℤ → List ℤ → List ℤ) (cp dp : List Point)
    (groups : List (List ℤ)) (fs : List (List ℝ)) (nm : Option String) (sn : String)
    (b : Bool) (out : RigidifyOut)
    (hsd : SetDiffSpec sd)
    (hrange : ∀ g ∈ groups, ∀ i ∈ g, 0 ≤ i ∧ i < (cp.length : ℤ))
    (hnodup : ∀ g ∈ groups, g.Nodup)
    (hdisj : List.Pairwise (fun g1 g2 => ∀ i, i ∈ g1 → i ∉ g2) groups)
    (hok : pyRigidify sd cp dp groups (some fs) nm none sn b = .ok out) :
    out.selectedIndices = groups.flatten ∧
    out.otherIndices = sd (intRange cp.length) groups.flatten ∧
    out.indexPairs = (intRange cp.length).flatMap
      (fun u => if u ∈ groups.flatten then [1, groups.flatten.indexOf u]
        else [0, (sd (intRange cp.length) groups.flatten).indexOf u]) ∧
    out.deformablePoints = (sd (intRange cp.length) groups.flatten).map
      (fun i => cp.getD i.toNat ((0 : ℝ), (0 : ℝ), (0 : ℝ))) ∧
    out.rigidifiedPoints = groups.flatten.map
      (fun i => cp.getD i.toNat ((0 : ℝ), (0 : ℝ), (0 : ℝ))) := by
  obtain ⟨hlen, rigids, ips, dfp, rgp, hrig, hips, hdf, hrg, hout⟩ :=
    pyRigidify_inv sd cp dp groups fs nm sn b out hok
  have hselnd : groups.flatten.Nodup := by
    rw [List.nodup_flatten]
    exact ⟨hnodup, hdisj⟩
  have hselsub : ∀ x ∈ groups.flatten, x ∈ intRange cp.length := by
    intro x hx
    obtain ⟨g, hg, hxg⟩ := List.mem_flatten.mp hx
    exact mem_intRange.mpr (hrange g hg x hxg)
  have hoth := hsd (intRange cp.length) groups.flatten
  have hothsub : ∀ x ∈ sd (intRange cp.length) groups.flatten, x ∈ intRange cp.length :=
    fun x hx => ((hoth.2 x).mp hx).1
  have hkd : buildKd cp.length (sd (intRange cp.length) groups.flatten) groups.flatten =
      pyDictRep (intRange cp.length)
        (fun u => if u ∈ groups.flatten then some [1, groups.flatten.indexOf u]
          else if u ∈ sd (intRange cp.length) groups.flatten
            then some [0, (sd (intRange cp.length) groups.flatten).indexOf u] else none) := by
    unfold buildKd
    exact kd_rep cp.length _ _ hoth.1 hselnd hothsub hselsub
  have hips2 : flattenValues (buildKd cp.length
      (sd (intRange cp.length) groups.flatten) groups.flatten) =
      .ok ((intRange cp.length).flatMap
        (fun u => if u ∈ groups.flatten then [1, groups.flatten.indexOf u]
          else [0, (sd (intRange cp.length) groups.flatten).indexOf u])) := by
    rw [hkd]
    refine flattenValues_rep _ _ _ ?_
    intro u hu
    by_cases hus : u ∈ groups.flatten
    · simp [hus]
    · have huo : u ∈ sd (intRange cp.length) groups.flatten :=
        (hoth.2 u).mpr ⟨hu, hus⟩
      simp [hus, huo]
  have hipse : ips = (intRange cp.length).flatMap
      (fun u => if u ∈ groups.flatten then [1, groups.flatten.indexOf u]
        else [0, (sd (intRange cp.length) groups.flatten).indexOf u]) := by
    rw [hips] at hips2
    cases hips2
    rfl
  have hdfe : dfp = (sd (intRange cp.length) groups.flatten).map
      (fun i => cp.getD i.toNat ((0 : ℝ), (0 : ℝ), (0 : ℝ))) := by
    have h2 := getAll_ok cp ((0 : ℝ), (0 : ℝ), (0 : ℝ))
      (sd (intRange cp.length) groups.flatten)
      (fun i hi => mem_intRange.mp (hothsub i hi))
    rw [hdf] at h2
    cases h2
    rfl
  have hrge : rgp = groups.flatten.map
      (fun i => cp.getD i.toNat ((0 : ℝ), (0 : ℝ), (0 : ℝ))) := by
    have h2 := getAll_ok cp ((0 : ℝ), (0 : ℝ), (0 : ℝ)) groups.flatten
      (fun i hi => mem_intRange.mp (hselsub i hi))
    rw [hrg] at h2
    cases h2
    rfl
  rw [hout, hipse, hdfe, hrge]
  exact ⟨rfl, rfl, rfl, rfl, rfl⟩

/-- Claim C1: for every point cloud and list of disjoint index groups, the
flattened index-pair sequence produced by Rigidify is obtained by iterating
the global index range in ascending order, emitting for the i-th global
index the pair `(0, localIndex)` if it is free or `(1, localIndex)` if it
is rigidified, and decoding the i-th pair through the corresponding index
list yields back exactly the global index i, so the decoded sequence is
ascending global-index order exactly. -/
theorem claim1 (sd : List ℤ → List ℤ → List ℤ) (pts : List Point)
    (groups : List (List ℤ)) (fs : List (List ℝ)) (nm : Option String) (sn : String)
    (b : Bool) (out : RigidifyOut)
    (hsd : SetDiffSpec sd)
    (hrange : ∀ g ∈ groups, ∀ i ∈ g, 0 ≤ i ∧ i < (pts.length : ℤ))
    (hnodup : ∀ g ∈ groups, g.Nodup)
    (hdisj : List.Pairwise (fun g1 g2 => ∀ i, i ∈ g1 → i ∉ g2) groups)
    (hok : pyRigidify sd pts pts groups (some fs) nm none sn b = .ok out) :
    out.indexPairs.length = 2 * pts.length ∧
    ∀ i, i < pts.length →
      (out.indexPairs.getD (2 * i) 9 =
        if (i : ℤ) ∈ out.selectedIndices then 1 else 0) ∧
      ((if out.indexPairs.getD (2 * i) 9 = 1 then out.selectedIndices
        else out.otherIndices).getD (out.indexPairs.getD (2 * i + 1) 9) (-1) = (i : ℤ)) := by
  obtain ⟨hsel, hoth, hips, _, _⟩ :=
    ips_decode sd pts pts groups fs nm sn b out hsd hrange hnodup hdisj hok
  have hg2 : ∀ u ∈ intRange pts.length,
      ((fun u => if u ∈ groups.flatten then [1, groups.flatten.indexOf u]
        else [0, (sd (intRange pts.length) groups.flatten).indexOf u]) u).length = 2 := by
    intro u _
    by_cases hu : u ∈ groups.flatten
    · simp [hu]
    · simp [hu]
  constructor
  · rw [hips, flatMap_len2 _ _ hg2, length_intRange]
  · intro i hi
    have hlen : i < (intRange pts.length).length := by rw [length_intRange]; exact hi
    have htag := flatMap_getD2 _ 9 0 (intRange pts.length) hg2 i 0 hlen (by omega)
    have hloc := flatMap_getD2 _ 9 0 (intRange pts.length) hg2 i 1 hlen (by omega)
    rw [Nat.add_zero] at htag
    rw [intRange_getD hi] at htag hloc
    rw [hips, hsel, hoth, htag, hloc]
    by_cases hmem : (i : ℤ) ∈ groups.flatten
    · constructor
      · simp [hmem]
      · simp only [if_pos hmem, List.getD_cons_zero, List.getD_cons_succ,
          reduceIte]
        exact getD_indexOf groups.flatten (i : ℤ) (-1) hmem
    · constructor
      · simp [hmem]
      · simp only [if_neg hmem, List.getD_cons_zero, List.getD_cons_succ,
          reduceIte]
        have hio : (i : ℤ) ∈ sd (intRange pts.length) groups.flatten :=
          ((hsd (intRange pts.length) groups.flatten).2 (i : ℤ)).mpr
            ⟨mem_intRange.mpr ⟨by omega, by exact_mod_cast hi⟩, hmem⟩
        exact getD_indexOf _ (i : ℤ) (-1) hio

/-- Claim C2: for every input point cloud and disjoint in-range groups,
looking every global index i up through the produced index map (subspace
tag plus local index) into the free or the rigidified container and
reading the stored position returns exactly the original coordinate
`points[i]`. -/
theorem claim2 (sd : List ℤ → List ℤ → List ℤ) (pts : List Point)
    (groups : List (List ℤ)) (fs : List (List ℝ)) (nm : Option String) (sn : String)
    (b : Bool) (out : RigidifyOut)
    (hsd : SetDiffSpec sd)
    (hrange : ∀ g ∈ groups, ∀ i ∈ g, 0 ≤ i ∧ i < (pts.length : ℤ))
    (hnodup : ∀ g ∈ groups, g.Nodup)
    (hdisj : List.Pairwise (fun g1 g2 => ∀ i, i ∈ g1 → i ∉ g2) groups)
    (hok : pyRigidify sd pts pts groups (some fs) nm none sn b = .ok out) :
    ∀ i, i < pts.length →
      (if out.indexPairs.getD (2 * i) 9 = 1 then out.rigidifiedPoints
        else out.deformablePoints).getD (out.indexPairs.getD (2 * i + 1) 9)
        ((0 : ℝ), (0 : ℝ), (0 : ℝ)) = pts.getD i ((0 : ℝ), (0 : ℝ), (0 : ℝ)) := by
  obtain ⟨hsel, hoth, hips, hdf, hrg⟩ :=
    ips_decode sd pts pts groups fs nm sn b out hsd hrange hnodup hdisj hok
  have hg2 : ∀ u ∈ intRange pts.length,
      ((fun u => if u ∈ groups.flatten then [1, groups.flatten.indexOf u]
        else [0, (sd (intRange pts.length) groups.flatten).indexOf u]) u).length = 2 := by
    intro u _
    by_cases hu : u ∈ groups.flatten
    · simp [hu]
    · simp [hu]
  intro i hi
  have hlen : i < (intRange pts.length).length := by rw [length_intRange]; exact hi
  have htag := flatMap_getD2 _ 9 0 (intRange pts.length) hg2 i 0 hlen (by omega)
  have hloc := flatMap_getD2 _ 9 0 (intRange pts.length) hg2 i 1 hlen (by omega)
  rw [Nat.add_zero] at htag
  rw [intRange_getD hi] at htag hloc
  rw [hips, htag, hloc, hdf, hrg]
  by_cases hmem : (i : ℤ) ∈ groups.flatten
  · simp only [if_pos hmem, List.getD_cons_zero, List.getD_cons_succ, reduceIte]
    have hidx : groups.flatten.indexOf (i : ℤ) < groups.flatten.length :=
      List.indexOf_lt_length.mpr hmem
    rw [getD_map _ _ _ _ (-1) hidx, getD_indexOf groups.flatten (i : ℤ) (-1) hmem,
      Int.toNat_natCast]
  · simp only [if_neg hmem, List.getD_cons_zero, List.getD_cons_succ]
    rw [if_neg (by decide : ¬((0 : ℕ) = 1))]
    have hio : (i : ℤ) ∈ sd (intRange pts.length) groups.flatten :=
      ((hsd (intRange pts.length) groups.flatten).2 (i : ℤ)).mpr
        ⟨mem_intRange.mpr ⟨by omega, by exact_mod_cast hi⟩, hmem⟩
    have hidx : (sd (intRange pts.length) groups.flatten).indexOf (i : ℤ) <
        (sd (intRange pts.length) groups.flatten).length :=
      List.indexOf_lt_length.mpr hio
    rw [getD_map _ _ _ _ (-1) hidx, getD_indexOf _ (i : ℤ) (-1) hio, Int.toNat_natCast]

/-- Claim C3: exactly the frame arities 3, 4, 6 and 7 are accepted and
dispatched; under otherwise valid inputs a run whose frames all have an
accepted arity succeeds, while a frame spec of any other arity (e.g. 5
scalars) makes the whole transformation fail with the frame-format error,
returning no result. -/
theorem claim3 (sd : List ℤ → List ℤ → List ℤ) (pts : List Point)
    (groups : List (List ℤ)) (fs : List (List ℝ)) (nm : Option String) (sn : String)
    (b : Bool)
    (hsd : SetDiffSpec sd)
    (hlen : groups.length = fs.length)
    (hrange : ∀ g ∈ groups, ∀ i ∈ g, 0 ≤ i ∧ i < (pts.length : ℤ))
    (hnonempty : ∀ g ∈ groups, g ≠ []) :
    ((∀ f ∈ fs, f.length = 3 ∨ f.length = 4 ∨ f.length = 6 ∨ f.length = 7) →
      ∃ out, pyRigidify sd pts pts groups (some fs) nm none sn b = .ok out) ∧
    (∀ j, j < fs.length →
      ((fs.getD j []).length ≠ 3 ∧ (fs.getD j []).length ≠ 4 ∧
        (fs.getD j []).length ≠ 6 ∧ (fs.getD j []).length ≠ 7) →
      (∀ k, k < j → (fs.getD k []).length = 3 ∨ (fs.getD k []).length = 4 ∨
        (fs.getD k []).length = 6 ∨ (fs.getD k []).length = 7) →
      pyRigidify sd pts pts groups (some fs) nm none sn b = .error .frameFormatError) := by
  constructor
  · intro harit
    refine pyRigidify_okRun sd pts pts groups fs nm sn b hsd hlen rfl hrange harit ?_
    intro p hpz _
    obtain ⟨g, f⟩ := p
    exact hnonempty g (List.of_mem_zip hpz).1
  · intro j hj hbad hpre
    have hai : ∀ i ∈ intRange pts.length, 0 ≤ i ∧ i < (pts.length : ℤ) :=
      fun i hi => mem_intRange.mp hi
    refine pyRigidify_of_processErr sd pts pts groups fs nm sn b _ hlen ?_
    refine processGroups_err pts (intRange pts.length) hai (groups.zip fs) j
      (by rw [List.length_zip]; omega) ?_ ?_
    · intro k hk
      have hkg : k < groups.length := by omega
      have hkf : k < fs.length := by omega
      rw [zip_getD groups fs k [] [] hkg hkf]
      refine ⟨hpre k hk, ?_⟩
      intro _
      have hgmem : groups.getD k [] ∈ groups := by
        rw [List.getD_eq_getElem _ _ hkg]
        exact List.getElem_mem hkg
      obtain ⟨i, hi⟩ := List.exists_mem_of_ne_nil _ (hnonempty _ hgmem)
      exact ⟨i, hi, mem_intRange.mpr (hrange _ hgmem i hi)⟩
    · have hjg : j < groups.length := by omega
      rw [zip_getD groups fs j [] [] hjg hj]
      exact hbad

/-- Claim C4 (amended): the orientation slice of a synthesized rigid frame
is the caller's quaternion stored verbatim for the 4- and 7-scalar
encodings (so it is unit only when the caller's quaternion was), and is
the normalized Euler-conversion output, of unit norm, for the 3- and
6-scalar encodings.  The original claim, that the stored orientation is
always a unit quaternion, is refuted by `claim4_counterexample`. -/
theorem claim4 (sd : List ℤ → List ℤ → List ℤ) (pts : List Point)
    (groups : List (List ℤ)) (fs : List (List ℝ)) (nm : Option String) (sn : String)
    (b : Bool) (out : RigidifyOut)
    (hok : pyRigidify sd pts pts groups (some fs) nm none sn b = .ok out)
    (i : ℕ) (hi : i < groups.length) :
    ((fs.getD i []).length = 4 → (out.rigids.getD i []).drop 3 = fs.getD i []) ∧
    ((fs.getD i []).length = 7 →
      (out.rigids.getD i []).drop 3 = (fs.getD i []).drop 3) ∧
    ((fs.getD i []).length = 3 ∨ (fs.getD i []).length = 6 →
      listNormSq ((out.rigids.getD i []).drop 3) = 1) := by
  obtain ⟨hlen, rigids, ips, dfp, rgp, hrig, _, _, _, hout⟩ :=
    pyRigidify_inv sd pts pts groups fs nm sn b out hok
  have hif : i < fs.length := by omega
  have hiz : i < (groups.zip fs).length := by rw [List.length_zip]; omega
  obtain ⟨_, hpt⟩ := processGroups_inv pts (intRange pts.length) (groups.zip fs) rigids hrig
  obtain ⟨sel, _, hsf⟩ := hpt i hiz
  rw [zip_getD groups fs i [] [] hi hif] at hsf
  have hrout : out.rigids = rigids := by rw [hout]
  rw [hrout]
  refine ⟨?_, ?_, ?_⟩
  · intro h4
    obtain ⟨_, hr⟩ := synthFrame_inv4 _ sel _ h4 hsf
    rw [hr, drop3_append (pointToList (mean3 sel)) _ (by rfl)]
  · intro h7
    have hr := synthFrame_inv7 _ sel _ h7 hsf
    rw [hr, drop3_append _ _ (by rw [List.length_take]; omega)]
  · intro h36
    rcases h36 with h3 | h6
    · obtain ⟨_, hr⟩ := synthFrame_inv3 _ sel _ h3 hsf
      rw [hr, drop3_append (pointToList (mean3 sel)) _ (by rfl),
        listNormSq_createFromEuler]
    · have hr := synthFrame_inv6 _ sel _ h6 hsf
      rw [hr, drop3_append _ _ (by rw [List.length_take]; omega),
        listNormSq_createFromEuler]

/-- Claim C4 counterexample: with the 4-scalar frame spec `[0, 0, 0, 2]`
the stored orientation is exactly `[0, 0, 0, 2]`, whose squared norm is 4,
not 1 - the caller-supplied quaternion is not normalized, refuting the
claim that the stored orientation is always a unit quaternion. -/
theorem claim4_counterexample :
    (pyRigidify filterSetDiff [((1 : ℝ), 2, 3)] [((1 : ℝ), 2, 3)] [[0]]
      (some [[0, 0, 0, 2]]) none none "s" false).map
        (fun o => o.rigids.map (fun r => r.drop 3)) = .ok [[(0 : ℝ), 0, 0, 2]] ∧
    listNormSq [(0 : ℝ), 0, 0, 2] ≠ 1 := by
  constructor
  · rfl
  · norm_num [listNormSq]

/-- Claim C5: for every rigid group whose frame spec has 3 or 4 scalars,
the synthesized frame position equals the arithmetic mean (barycenter) of
the group's selected points, within floating-point tolerance 1e-9
(`getBarycenter` is modelled from the spec, section 4.1, as it is not
under src/). -/
theorem claim5 (sd : List ℤ → List ℤ → List ℤ) (pts : List Point)
    (groups : List (List ℤ)) (fs : List (List ℝ)) (nm : Option String) (sn : String)
    (b : Bool) (out : RigidifyOut)
    (hok : pyRigidify sd pts pts groups (some fs) nm none sn b = .ok out)
    (i : ℕ) (hi : i < groups.length)
    (harity : (fs.getD i []).length = 3 ∨ (fs.getD i []).length = 4) :
    ∃ sel, mfilter (groups.getD i []) pts (intRange pts.length) = .ok sel ∧ sel ≠ [] ∧
      |(out.rigids.getD i []).getD 0 0 - (mean3 sel).1| ≤ 1e-9 ∧
      |(out.rigids.getD i []).getD 1 0 - (mean3 sel).2.1| ≤ 1e-9 ∧
      |(out.rigids.getD i []).getD 2 0 - (mean3 sel).2.2| ≤ 1e-9 := by
  obtain ⟨hlen, rigids, ips, dfp, rgp, hrig, _, _, _, hout⟩ :=
    pyRigidify_inv sd pts pts groups fs nm sn b out hok
  have hif : i < fs.length := by omega
  have hiz : i < (groups.zip fs).length := by rw [List.length_zip]; omega
  obtain ⟨_, hpt⟩ := processGroups_inv pts (intRange pts.length) (groups.zip fs) rigids hrig
  obtain ⟨sel, hm, hsf⟩ := hpt i hiz
  rw [zip_getD groups fs i [] [] hi hif] at hm hsf
  have hrout : out.rigids = rigids := by rw [hout]
  have hshape : sel ≠ [] ∧ ∃ tail, rigids.getD i [] = pointToList (mean3 sel) ++ tail := by
    rcases harity with h3 | h4
    · obtain ⟨hne, hr⟩ := synthFrame_inv3 _ sel _ h3 hsf
      exact ⟨hne, _, hr⟩
    · obtain ⟨hne, hr⟩ := synthFrame_inv4 _ sel _ h4 hsf
      exact ⟨hne, _, hr⟩
  obtain ⟨hne, tail, hr⟩ := hshape
  refine ⟨sel, hm, hne, ?_, ?_, ?_⟩
  · rw [hrout, hr]
    simp only [pointToList, List.cons_append, List.getD_cons_zero]
    rw [sub_self, abs_zero]
    norm_num
  · rw [hrout, hr]
    simp only [pointToList, List.cons_append, List.getD_cons_succ, List.getD_cons_zero]
    rw [sub_self, abs_zero]
    norm_num
  · rw [hrout, hr]
    simp only [pointToList, List.cons_append, List.getD_cons_succ, List.getD_cons_zero]
    rw [sub_self, abs_zero]
    norm_num

/-- Claim C6 (amended): the free index sequence enumerates, without
duplicates, exactly the set difference of the full index range and the
union of the groups; its order, however, is the implementation-defined
iteration order of a Python set, which is not ascending in general (see
`claim6_counterexample` for a CPython run whose free indices come out as
`[15, 7]`). -/
theorem claim6 (sd : List ℤ → List ℤ → List ℤ) (pts : List Point)
    (groups : List (List ℤ)) (fs : List (List ℝ)) (nm : Option String) (sn : String)
    (b : Bool) (out : RigidifyOut)
    (hsd : SetDiffSpec sd)
    (hok : pyRigidify sd pts pts groups (some fs) nm none sn b = .ok out) :
    out.otherIndices.Nodup ∧
    ∀ x : ℤ, x ∈ out.otherIndices ↔
      (0 ≤ x ∧ x < (pts.length : ℤ) ∧ ∀ g ∈ groups, x ∉ g) := by
  obtain ⟨hlen, rigids, ips, dfp, rgp, _, _, _, _, hout⟩ :=
    pyRigidify_inv sd pts pts groups fs nm sn b out hok
  have hoth : out.otherIndices = sd (intRange pts.length) groups.flatten := by rw [hout]
  have hsd2 := hsd (intRange pts.length) groups.flatten
  rw [hoth]
  refine ⟨hsd2.1, ?_⟩
  intro x
  rw [hsd2.2 x, mem_intRange]
  constructor
  · rintro ⟨⟨h0, h1⟩, hnot⟩
    refine ⟨h0, h1, ?_⟩
    intro g hg hxg
    exact hnot (List.mem_flatten.mpr ⟨g, hg, hxg⟩)
  · rintro ⟨h0, h1, hall⟩
    refine ⟨⟨h0, h1⟩, ?_⟩
    intro hc
    obtain ⟨g, hg, hxg⟩ := List.mem_flatten.mp hc
    exact hall g hg hxg

set_option maxRecDepth 100000 in
/-- Claim C6 counterexample: on a 16-point cloud with one rigid group
covering every index except 7 and 15, the free index sequence produced
under CPython set semantics is `[15, 7]` - the set difference is correct
as a set, but it is not produced in ascending order (15 precedes 7), so
the k-th smallest free index does not get free local index k. -/
theorem claim6_counterexample :
    (pyRigidify cpySetDiff (List.replicate 16 ((0 : ℝ), 0, 0))
      (List.replicate 16 ((0 : ℝ), 0, 0)) [[0, 1, 2, 3, 4, 5, 6, 8, 9, 10, 11, 12, 13, 14]]
      (some [[0, 0, 0, 0, 0, 0, 1]]) none none "s" false).map
        (fun o => o.otherIndices) = .ok [15, 7] ∧ ¬((15 : ℤ) ≤ 7) := by
  constructor
  · rfl
  · decide

/-- Claim C7 (amended): there is no dedicated range check.  When every
group index lies in `[0, totalCount)` (and the run is otherwise valid) no
error is raised; when some index falls outside `[-totalCount, totalCount)`
the run aborts with a Python `IndexError`, raised only when the
rigidified container is built; but a negative index in
`[-totalCount, 0)` is accepted silently through Python wrap-around
indexing (see `claim7_counterexample`), so the claim that every
out-of-range index faults does not hold. -/
theorem claim7 (sd : List ℤ → List ℤ → List ℤ) (pts : List Point)
    (groups : List (List ℤ)) (fs : List (List ℝ)) (nm : Option String) (sn : String)
    (b : Bool)
    (hsd : SetDiffSpec sd)
    (hlen : groups.length = fs.length) :
    ((∀ g ∈ groups, (∀ i ∈ g, 0 ≤ i ∧ i < (pts.length : ℤ)) ∧ g ≠ []) →
      (∀ f ∈ fs, f.length = 3 ∨ f.length = 4 ∨ f.length = 6 ∨ f.length = 7) →
      ∃ out, pyRigidify sd pts pts groups (some fs) nm none sn b = .ok out) ∧
    ((∀ f ∈ fs, f.length = 6 ∨ f.length = 7) →
      (∃ g ∈ groups, ∃ i ∈ g, i < -(pts.length : ℤ) ∨ (pts.length : ℤ) ≤ i) →
      pyRigidify sd pts pts groups (some fs) nm none sn b = .error .indexError) := by
  constructor
  · intro hval harit
    refine pyRigidify_okRun sd pts pts groups fs nm sn b hsd hlen rfl
      (fun g hg => (hval g hg).1) harit ?_
    intro p hpz _
    obtain ⟨g, f⟩ := p
    exact (hval g (List.of_mem_zip hpz).1).2
  · intro harit67 hbad
    refine pyRigidify_indexErr sd pts pts groups fs nm sn b hsd hlen rfl harit67 ?_
    obtain ⟨g, hg, i, hi, hout⟩ := hbad
    exact ⟨i, List.mem_flatten.mpr ⟨g, hg, hi⟩, hout⟩

/-- Claim C7 counterexample: the group index -1 lies outside
`[0, totalCount)`, yet the transformation succeeds: Python negative
indexing silently wraps, storing the last point in the rigidified
container instead of raising any error. -/
theorem claim7_counterexample :
    pyRigidify filterSetDiff [((0 : ℝ), 0, 0), (1, 1, 1)] [((0 : ℝ), 0, 0), (1, 1, 1)]
      [[-1]] (some [[9, 9, 9, 0, 0, 0, 1]]) none none "s" false =
    .ok ⟨"s", [((0 : ℝ), 0, 0), (1, 1, 1)], [[9, 9, 9, 0, 0, 0, 1]], [((1 : ℝ), 1, 1)],
      [0], [0, 1], [-1], [0, 0, 0, 1, 1, 0], true⟩ := by
  rfl

/-- Claim C8 (amended): mutually overlapping rigid groups are not
rejected: the transformation succeeds with no dedicated error, silently
assigning a shared index to the rigidified subspace once per claiming
group, the dict bookkeeping keeping the later group's entry (see
`claim8_counterexample`). -/
theorem claim8 (sd : List ℤ → List ℤ → List ℤ) (pts : List Point)
    (groups : List (List ℤ)) (fs : List (List ℝ)) (nm : Option String) (sn : String)
    (b : Bool)
    (hsd : SetDiffSpec sd)
    (hlen : groups.length = fs.length)
    (hrange : ∀ g ∈ groups, ∀ i ∈ g, 0 ≤ i ∧ i < (pts.length : ℤ))
    (hnonempty : ∀ g ∈ groups, g ≠ [])
    (harit : ∀ f ∈ fs, f.length = 3 ∨ f.length = 4 ∨ f.length = 6 ∨ f.length = 7)
    (hoverlap : ∃ j k, j < groups.length ∧ k < groups.length ∧ j ≠ k ∧
      ∃ i : ℤ, i ∈ groups.getD j [] ∧ i ∈ groups.getD k []) :
    ∃ out, pyRigidify sd pts pts groups (some fs) nm none sn b = .ok out := by
  refine pyRigidify_okRun sd pts pts groups fs nm sn b hsd hlen rfl hrange harit ?_
  intro p hpz _
  obtain ⟨g, f⟩ := p
  exact hnonempty g (List.of_mem_zip hpz).1

/-- Claim C8 counterexample: with the two overlapping groups `[[0], [0]]`
the transformation does not fail with any overlapping-group error: it
succeeds, the shared index 0 appears twice in the rigidified container,
and the index map records its later (second-group) local index 1. -/
theorem claim8_counterexample :
    pyRigidify filterSetDiff [((0 : ℝ), 0, 0), (1, 1, 1)] [((0 : ℝ), 0, 0), (1, 1, 1)]
      [[0], [0]] (some [[1, 2, 3, 0, 0, 0, 1], [4, 5, 6, 0, 0, 0, 1]]) none none "s"
      false =
    .ok ⟨"s", [((1 : ℝ), 1, 1)], [[1, 2, 3, 0, 0, 0, 1], [4, 5, 6, 0, 0, 0, 1]],
      [((0 : ℝ), 0, 0), ((0 : ℝ), 0, 0)], [0, 1], [1], [0, 0], [1, 1, 0, 0], true⟩ := by
  rfl

/-- Claim C9 (amended): the source contains no already-rigidified guard:
the transformation never raises any such error and its behaviour is
completely independent of whether the source body's solver components
were already removed by a previous invocation, so a second invocation
blindly repeats the non-idempotent removal instead of failing fast.  The
prior engine state is modelled from the spec (section 5) as the
`alreadyRigidified` flag, which the source never inspects. -/
theorem claim9 (sd : List ℤ → List ℤ → List ℤ) (cp dp : List Point)
    (groups : List (List ℤ)) (frames : Option (List (List ℝ))) (nm : Option String)
    (fo : Option (List (List ℝ))) (sn : String) :
    pyRigidify sd cp dp groups frames nm fo sn true =
      pyRigidify sd cp dp groups frames nm fo sn false := rfl

/-- Claim C9 counterexample: invoking the transformation on a source body
that has already undergone it (flag set) does not fail fast with any
already-rigidified error: it returns the full descriptor again,
re-flagging the solver components for removal. -/
theorem claim9_counterexample :
    pyRigidify filterSetDiff [((0 : ℝ), 0, 0), (1, 1, 1)] [((0 : ℝ), 0, 0), (1, 1, 1)]
      [[1]] (some [[2, 3, 4, 0, 0, 0, 1]]) none none "s" true =
    .ok ⟨"s", [((0 : ℝ), 0, 0)], [[2, 3, 4, 0, 0, 0, 1]], [((1 : ℝ), 1, 1)], [0], [0],
      [1], [0, 0, 1, 0], true⟩ := by
  rfl

/-- Claim C10: whenever the legacy `frameOrientation` parameter is
supplied, it wholesale replaces the `frames` parameter before any
validation, silently discarding whatever `frames` argument the caller
passed. -/
theorem claim10 (sd : List ℤ → List ℤ → List ℤ) (cp dp : List Point)
    (groups : List (List ℤ)) (frames : Option (List (List ℝ))) (nm : Option String)
    (fo : List (List ℝ)) (sn : String) (b : Bool) :
    pyRigidify sd cp dp groups frames nm (some fo) sn b =
      pyRigidify sd cp dp groups (some fo) nm none sn b := rfl

/-- Witness for claim C1 at a concrete two-point cloud with one group. -/
theorem claim1_witness :
    ∃ out, pyRigidify filterSetDiff [((0 : ℝ), 0, 0), (1, 1, 1)]
        [((0 : ℝ), 0, 0), (1, 1, 1)] [[1]] (some [[2, 3, 4, 0, 0, 0, 1]]) none none "s"
        false = .ok out ∧
      (out.indexPairs.length = 2 * 2 ∧
        ∀ i, i < 2 →
          (out.indexPairs.getD (2 * i) 9 =
            if (i : ℤ) ∈ out.selectedIndices then 1 else 0) ∧
          ((if out.indexPairs.getD (2 * i) 9 = 1 then out.selectedIndices
            else out.otherIndices).getD (out.indexPairs.getD (2 * i + 1) 9) (-1) =
            (i : ℤ))) := by
  have hok : pyRigidify filterSetDiff [((0 : ℝ), 0, 0), (1, 1, 1)]
      [((0 : ℝ), 0, 0), (1, 1, 1)] [[1]] (some [[2, 3, 4, 0, 0, 0, 1]]) none none "s"
      false =
      .ok ⟨"s", [((0 : ℝ), 0, 0)], [[2, 3, 4, 0, 0, 0, 1]], [((1 : ℝ), 1, 1)], [0], [0],
        [1], [0, 0, 1, 0], true⟩ := rfl
  exact ⟨_, hok, claim1 filterSetDiff [((0 : ℝ), 0, 0), (1, 1, 1)] [[1]]
    [[2, 3, 4, 0, 0, 0, 1]] none "s" false _ filterSetDiff_spec (by decide) (by decide)
    (List.pairwise_singleton _ _) hok⟩

/-- Witness for claim C2 at a concrete two-point cloud with one group. -/
theorem claim2_witness :
    ∃ out, pyRigidify filterSetDiff [((0 : ℝ), 0, 0), (1, 1, 1)]
        [((0 : ℝ), 0, 0), (1, 1, 1)] [[1]] (some [[2, 3, 4, 0, 0, 0, 1]]) none none "s"
        false = .ok out ∧
      ∀ i, i < 2 →
        (if out.indexPairs.getD (2 * i) 9 = 1 then out.rigidifiedPoints
          else out.deformablePoints).getD (out.indexPairs.getD (2 * i + 1) 9)
          ((0 : ℝ), (0 : ℝ), (0 : ℝ)) =
        List.getD [((0 : ℝ), 0, 0), (1, 1, 1)] i ((0 : ℝ), (0 : ℝ), (0 : ℝ)) := by
  have hok : pyRigidify filterSetDiff [((0 : ℝ), 0, 0), (1, 1, 1)]
      [((0 : ℝ), 0, 0), (1, 1, 1)] [[1]] (some [[2, 3, 4, 0, 0, 0, 1]]) none none "s"
      false =
      .ok ⟨"s", [((0 : ℝ), 0, 0)], [[2, 3, 4, 0, 0, 0, 1]], [((1 : ℝ), 1, 1)], [0], [0],
        [1], [0, 0, 1, 0], true⟩ := rfl
  exact ⟨_, hok, claim2 filterSetDiff [((0 : ℝ), 0, 0), (1, 1, 1)] [[1]]
    [[2, 3, 4, 0, 0, 0, 1]] none "s" false _ filterSetDiff_spec (by decide) (by decide)
    (List.pairwise_singleton _ _) hok⟩

/-- Witness for claim C3 at a one-point cloud with a 5-scalar frame spec. -/
theorem claim3_witness :
    ((∀ f ∈ [[(1 : ℝ), 2, 3, 4, 5]], f.length = 3 ∨ f.length = 4 ∨ f.length = 6 ∨
        f.length = 7) →
      ∃ out, pyRigidify filterSetDiff [((0 : ℝ), 0, 0)] [((0 : ℝ), 0, 0)] [[0]]
        (some [[(1 : ℝ), 2, 3, 4, 5]]) none none "s" false = .ok out) ∧
    (∀ j, j < ([[(1 : ℝ), 2, 3, 4, 5]] : List (List ℝ)).length →
      ((([[(1 : ℝ), 2, 3, 4, 5]] : List (List ℝ)).getD j []).length ≠ 3 ∧
        (([[(1 : ℝ), 2, 3, 4, 5]] : List (List ℝ)).getD j []).length ≠ 4 ∧
        (([[(1 : ℝ), 2, 3, 4, 5]] : List (List ℝ)).getD j []).length ≠ 6 ∧
        (([[(1 : ℝ), 2, 3, 4, 5]] : List (List ℝ)).getD j []).length ≠ 7) →
      (∀ k, k < j → (([[(1 : ℝ), 2, 3, 4, 5]] : List (List ℝ)).getD k []).length = 3 ∨
        (([[(1 : ℝ), 2, 3, 4, 5]] : List (List ℝ)).getD k []).length = 4 ∨
        (([[(1 : ℝ), 2, 3, 4, 5]] : List (List ℝ)).getD k []).length = 6 ∨
        (([[(1 : ℝ), 2, 3, 4, 5]] : List (List ℝ)).getD k []).length = 7) →
      pyRigidify filterSetDiff [((0 : ℝ), 0, 0)] [((0 : ℝ), 0, 0)] [[0]]
        (some [[(1 : ℝ), 2, 3, 4, 5]]) none none "s" false =
        .error .frameFormatError) :=
  claim3 filterSetDiff [((0 : ℝ), 0, 0)] [[0]] [[(1 : ℝ), 2, 3, 4, 5]] none "s" false
    filterSetDiff_spec (by decide) (by decide) (by decide)

/-- Witness for claim C4 at a concrete arity-4 frame spec. -/
theorem claim4_witness :
    ∃ out, pyRigidify filterSetDiff [((1 : ℝ), 2, 3)] [((1 : ℝ), 2, 3)] [[0]]
        (some [[0, 0, 0, 2]]) none none "s" false = .ok out ∧
      (out.rigids.getD 0 []).drop 3 = [(0 : ℝ), 0, 0, 2] := by
  have hok : pyRigidify filterSetDiff [((1 : ℝ), 2, 3)] [((1 : ℝ), 2, 3)] [[0]]
      (some [[0, 0, 0, 2]]) none none "s" false =
      .ok ⟨"s", [], [pointToList (mean3 [((1 : ℝ), 2, 3)]) ++ [0, 0, 0, 2]],
        [((1 : ℝ), 2, 3)], [0], [], [0], [1, 0], true⟩ := rfl
  exact ⟨_, hok, (claim4 filterSetDiff [((1 : ℝ), 2, 3)] [[0]] [[0, 0, 0, 2]] none "s"
    false _ hok 0 (by decide)).1 (by decide)⟩

/-- Witness for claim C5 at a concrete arity-4 frame spec. -/
theorem claim5_witness :
    ∃ out sel, pyRigidify filterSetDiff [((1 : ℝ), 2, 3)] [((1 : ℝ), 2, 3)] [[0]]
        (some [[0, 0, 0, 2]]) none none "s" false = .ok out ∧
      mfilter [0] [((1 : ℝ), 2, 3)] (intRange 1) = .ok sel ∧ sel ≠ [] ∧
      |(out.rigids.getD 0 []).getD 0 0 - (mean3 sel).1| ≤ 1e-9 ∧
      |(out.rigids.getD 0 []).getD 1 0 - (mean3 sel).2.1| ≤ 1e-9 ∧
      |(out.rigids.getD 0 []).getD 2 0 - (mean3 sel).2.2| ≤ 1e-9 := by
  have hok : pyRigidify filterSetDiff [((1 : ℝ), 2, 3)] [((1 : ℝ), 2, 3)] [[0]]
      (some [[0, 0, 0, 2]]) none none "s" false =
      .ok ⟨"s", [], [pointToList (mean3 [((1 : ℝ), 2, 3)]) ++ [0, 0, 0, 2]],
        [((1 : ℝ), 2, 3)], [0], [], [0], [1, 0], true⟩ := rfl
  obtain ⟨sel, h1, h2, h3, h4, h5⟩ := claim5 filterSetDiff [((1 : ℝ), 2, 3)] [[0]]
    [[0, 0, 0, 2]] none "s" false _ hok 0 (by decide) (by decide)
  exact ⟨_, sel, hok, h1, h2, h3, h4, h5⟩

/-- Witness for claim C6 at a concrete two-point cloud with one group. -/
theorem claim6_witness :
    ∃ out, pyRigidify filterSetDiff [((0 : ℝ), 0, 0), (1, 1, 1)]
        [((0 : ℝ), 0, 0), (1, 1, 1)] [[1]] (some [[2, 3, 4, 0, 0, 0, 1]]) none none "s"
        false = .ok out ∧
      out.otherIndices.Nodup ∧
      ∀ x : ℤ, x ∈ out.otherIndices ↔
        (0 ≤ x ∧ x < 2 ∧ ∀ g ∈ ([[1]] : List (List ℤ)), x ∉ g) := by
  have hok : pyRigidify filterSetDiff [((0 : ℝ), 0, 0), (1, 1, 1)]
      [((0 : ℝ), 0, 0), (1, 1, 1)] [[1]] (some [[2, 3, 4, 0, 0, 0, 1]]) none none "s"
      false =
      .ok ⟨"s", [((0 : ℝ), 0, 0)], [[2, 3, 4, 0, 0, 0, 1]], [((1 : ℝ), 1, 1)], [0], [0],
        [1], [0, 0, 1, 0], true⟩ := rfl
  obtain ⟨hn, hm⟩ := claim6 filterSetDiff [((0 : ℝ), 0, 0), (1, 1, 1)] [[1]]
    [[2, 3, 4, 0, 0, 0, 1]] none "s" false _ filterSetDiff_spec hok
  exact ⟨_, hok, hn, hm⟩

/-- Witness for claim C7 at a concrete one-point cloud. -/
theorem claim7_witness :
    ((∀ g ∈ ([[0]] : List (List ℤ)),
        (∀ i ∈ g, 0 ≤ i ∧ i < (([((0 : ℝ), 0, 0)] : List Point).length : ℤ)) ∧ g ≠ []) →
      (∀ f ∈ [[(0 : ℝ), 0, 0, 0, 0, 0, 1]], f.length = 3 ∨ f.length = 4 ∨
        f.length = 6 ∨ f.length = 7) →
      ∃ out, pyRigidify filterSetDiff [((0 : ℝ), 0, 0)] [((0 : ℝ), 0, 0)] [[0]]
        (some [[(0 : ℝ), 0, 0, 0, 0, 0, 1]]) none none "s" false = .ok out) ∧
    ((∀ f ∈ [[(0 : ℝ), 0, 0, 0, 0, 0, 1]], f.length = 6 ∨ f.length = 7) →
      (∃ g ∈ ([[0]] : List (List ℤ)), ∃ i ∈ g,
        i < -(([((0 : ℝ), 0, 0)] : List Point).length : ℤ) ∨
        (([((0 : ℝ), 0, 0)] : List Point).length : ℤ) ≤ i) →
      pyRigidify filterSetDiff [((0 : ℝ), 0, 0)] [((0 : ℝ), 0, 0)] [[0]]
        (some [[(0 : ℝ), 0, 0, 0, 0, 0, 1]]) none none "s" false =
        .error .indexError) :=
  claim7 filterSetDiff [((0 : ℝ), 0, 0)] [[0]] [[(0 : ℝ), 0, 0, 0, 0, 0, 1]] none "s"
    false filterSetDiff_spec (by decide)

/-- Witness for claim C8 at a concrete overlapping-group input. -/
theorem claim8_witness :
    ∃ out, pyRigidify filterSetDiff [((0 : ℝ), 0, 0), (1, 1, 1)]
      [((0 : ℝ), 0, 0), (1, 1, 1)] [[0], [0]]
      (some [[1, 2, 3, 0, 0, 0, 1], [4, 5, 6, 0, 0, 0, 1]]) none none "s" false =
      .ok out :=
  claim8 filterSetDiff [((0 : ℝ), 0, 0), (1, 1, 1)] [[0], [0]]
    [[1, 2, 3, 0, 0, 0, 1], [4, 5, 6, 0, 0, 0, 1]] none "s" false filterSetDiff_spec
    (by decide) (by decide) (by decide) (by decide)
    ⟨0, 1, by decide, by decide, by decide, 0, by decide, by decide⟩
